import Mathlib

/-!
Verification development for `tinynish.c`, the tinyniSh shell.

A shallow embedding of the shell's token expander, command parser, background
registry and command executor, followed by theorems about them.

Conventions of the embedding

* A C string is a `List Char` (the characters before the terminating NUL); a
  `char*` that may be `NULL` is an `Option (List Char)`.
* `expandDoubleDollar`, `parseCmd` and `reapLoop` give what the source computes
  while it stays inside its storage. The storage itself (`calloc(2049, 1)` for
  an expanded token, `calloc(10, 1)` for the pid text, the slots of `args[513]`,
  the freed list node) is in `expandDoubleDollarChecked`, `parseCmdChecked` and
  `reapLoopChecked`, which follow the same statements and stop where the source
  writes past a buffer or reads a freed node.
* `getpid()`, `fork()`, `open()`, `execvp()`, `waitpid()` and `getenv()` are
  inputs of the embedding: each function takes the values these calls return.
* Everything a function does to the outside world is recorded, in order, in a
  list of `Effect`s.
-/

namespace TinyniSh

/-! ## Token expander -/

/-- The text `sprintf(pid, "%ld", rawPid)` writes: the decimal digits of the pid. -/
def pidString (rawPid : Nat) : List Char := Nat.toDigits 10 rawPid

/-- The needle of `expandDoubleDollar`: `char* needle = "$$"`. -/
def needle : List Char := ['$', '$']

/-- Whether `p` is an initial segment of `s`. -/
def startsWith : List Char → List Char → Bool
  | _, [] => true
  | [], _ :: _ => false
  | c :: s, d :: p => c == d && startsWith s p

/-- C `strstr(haystack, ndl)`: the offset of the first occurrence of `ndl` in
`haystack`, or `none` for a `NULL` result. -/
def strstr : List Char → List Char → Option Nat
  | [], ndl => if ndl = [] then some 0 else none
  | c :: haystack, ndl =>
    if startsWith (c :: haystack) ndl then some 0
    else (strstr haystack ndl).map (· + 1)

/-- The `while (location != NULL)` loop of `expandDoubleDollar`. `tokenPos` is
the unread rest of the token, `expanded` the output written so far. Every
iteration advances `tokenPos` by at least two characters, so `strlen(token)`
iterations always suffice; the first argument counts them down. -/
def expandLoop (pid : List Char) : Nat → List Char → List Char → List Char
  | 0, tokenPos, expanded => expanded ++ tokenPos
  | fuel + 1, tokenPos, expanded =>
    match strstr tokenPos needle with
    | none => expanded ++ tokenPos
    | some nBytes =>
      expandLoop pid fuel (tokenPos.drop (nBytes + 2))
        (expanded ++ tokenPos.take nBytes ++ pid)

/-- The C function `expandDoubleDollar(token)` in a process whose `getpid()` is
`rawPid`. -/
def expandDoubleDollar (rawPid : Nat) (token : List Char) : List Char :=
  expandLoop (pidString rawPid) token.length token []

/-- The expansion as the specification words it: scan left to right, replace
each `$$` met by the pid text and do not rescan the replacement. -/
def replaceDoubleDollar (pid : List Char) : List Char → List Char
  | [] => []
  | [c] => [c]
  | c :: d :: rest =>
    if c = '$' ∧ d = '$' then pid ++ replaceDoubleDollar pid rest
    else c :: replaceDoubleDollar pid (d :: rest)

/-- Number of (possibly overlapping) positions at which `$$` occurs. -/
def countDoubleDollar : List Char → Nat
  | [] => 0
  | [_] => 0
  | c :: d :: rest =>
    (if c = '$' ∧ d = '$' then 1 else 0) + countDoubleDollar (d :: rest)

/-- A list of characters is pid text when it is non-empty and all digits. -/
def IsPidText (pid : List Char) : Prop := pid ≠ [] ∧ ∀ c ∈ pid, c.isDigit = true

/-- Concatenation of `parts` with `sep` between consecutive parts. -/
def joinWith (sep : List Char) : List (List Char) → List Char
  | [] => []
  | [s] => s
  | s :: t :: rest => s ++ sep ++ joinWith sep (t :: rest)

/-- Adds a character in front of the first part. -/
def consFirst (c : Char) : List (List Char) → List (List Char)
  | [] => [[c]]
  | s :: rest => (c :: s) :: rest

/-- The parts of a token between its placeholders, found scanning left to
right: a `$$` met ends the current part and scanning resumes after it. -/
def segments : List Char → List (List Char)
  | [] => [[]]
  | [c] => [[c]]
  | c :: d :: rest =>
    if c = '$' ∧ d = '$' then [] :: segments rest
    else consFirst c (segments (d :: rest))

/-! ## Command parser -/

/-- The C `struct cmdInfo`. `args` lists the slots of the array `args[513]`
that have been written, from index 0; a slot that is `none`, or lies beyond the
list, holds `NULL` (the struct is zero-filled before parsing). -/
structure cmdInfo where
  command : Option (List Char)
  args : List (Option (List Char))
  isIgnored : Bool
  isBackground : Bool
  argsCount : Int
  inputRedirect : Option (List Char)
  outputRedirect : Option (List Char)
  deriving DecidableEq

/-- The struct after `memset(cmd, 0, sizeof(*cmd))` in `main`. -/
def cmdInfo.zero : cmdInfo :=
  { command := none, args := [], isIgnored := false, isBackground := false,
    argsCount := 0, inputRedirect := none, outputRedirect := none }

/-- The C `struct shellState`; `head` is the linked list of background pids in
list order, `currentCmd` the command the pointer of that name refers to. -/
structure shellState where
  status : List Char
  currentDir : List Char
  head : List Int
  backgroundIgnored : Bool
  currentCmd : Option cmdInfo
  deriving DecidableEq

/-- Reading `args[i]`. -/
def readSlot (args : List (Option (List Char))) (i : Int) : Option (List Char) :=
  args.getD i.toNat none

/-- The array store `args[i] = v`. -/
def writeSlot : List (Option (List Char)) → Nat → Option (List Char) →
    List (Option (List Char))
  | [], 0, v => [v]
  | [], i + 1, v => none :: writeSlot [] i v
  | _ :: args, 0, v => v :: args
  | a :: args, i + 1, v => a :: writeSlot args i v

/-- The test `strcmp(p, lit) == 0` for a non-`NULL` `p`. -/
def strEq (p : Option (List Char)) (lit : List Char) : Bool := p == some lit

/-- The C function `removeArgument(info, argidx, freestr)`: the slot is set to `NULL` and the
count decremented; `freestr` only decides whether the string is freed. -/
def removeArgument (info : cmdInfo) (argidx : Int) (_freestr : Bool) : cmdInfo :=
  { info with args := writeSlot info.args argidx.toNat none,
              argsCount := info.argsCount - 1 }

/-- Membership of a character in a delimiter string. -/
def isDelim (delim : List Char) (c : Char) : Bool := delim.contains c

/-- C `strtok_r`: skip leading delimiters; `none` (`NULL`) when nothing is
left; otherwise the token up to the next delimiter together with the save
pointer, which stands just after that delimiter (or at the end). -/
def strtok_r (str delim : List Char) : Option (List Char × List Char) :=
  match str.dropWhile (isDelim delim) with
  | [] => none
  | c :: s =>
    some ((c :: s).takeWhile (fun x => !isDelim delim x),
          ((c :: s).dropWhile (fun x => !isDelim delim x)).drop 1)

/-- The delimiter string `" "` that `parseCmd` passes to `strtok_r`. -/
def cmdDelim : List Char := [' ']

/-- The argument loop of `parseCmd` (`while (token != NULL)`): every further
token is expanded and stored at `args[argCount]`. Each token consumes at least
one character of the input, so `strlen` of the rest bounds the iterations. -/
def parseArgsLoop (rawPid : Nat) :
    Nat → List Char → List (Option (List Char)) → Nat →
      List (Option (List Char)) × Nat
  | 0, _, args, argCount => (args, argCount)
  | fuel + 1, savePtr, args, argCount =>
    match strtok_r savePtr cmdDelim with
    | none => (args, argCount)
    | some (token, savePtr') =>
      parseArgsLoop rawPid fuel savePtr'
        (writeSlot args argCount (some (expandDoubleDollar rawPid token)))
        (argCount + 1)

/-- The background check of `parseCmd` (source lines 388-397); the result is
the updated struct and `idxForIORedir`. Both branches assign
`idxForIORedir = argCount - 2` from the local, undecremented `argCount`. -/
def parseBackground (info : cmdInfo) (argCount : Int) : cmdInfo × Int :=
  if info.argsCount > 1 ∧ strEq (readSlot info.args (info.argsCount - 1)) ['&'] = true then
    (removeArgument { info with isBackground := true } (info.argsCount - 1) true,
     argCount - 2)
  else
    (info, argCount - 2)

/-- The redirection scan of `parseCmd` (source lines 399-431). -/
def parseRedirect (info : cmdInfo) (idxForIORedir : Int) : cmdInfo :=
  if idxForIORedir > 0 then
    if strEq (readSlot info.args idxForIORedir) ['<'] = true then
      let info := { info with inputRedirect := readSlot info.args (idxForIORedir + 1) }
      let info := removeArgument info idxForIORedir true
      let info := removeArgument info (idxForIORedir + 1) false
      if idxForIORedir - 2 > 0 ∧ strEq (readSlot info.args (idxForIORedir - 2)) ['>'] = true then
        let info := { info with outputRedirect := readSlot info.args (idxForIORedir - 1) }
        let info := removeArgument info (idxForIORedir - 2) true
        removeArgument info (idxForIORedir - 1) false
      else info
    else if strEq (readSlot info.args idxForIORedir) ['>'] = true then
      let info := { info with outputRedirect := readSlot info.args (idxForIORedir + 1) }
      let info := removeArgument info idxForIORedir true
      let info := removeArgument info (idxForIORedir + 1) false
      if idxForIORedir - 2 > 0 ∧ strEq (readSlot info.args (idxForIORedir - 2)) ['<'] = true then
        let info := { info with inputRedirect := readSlot info.args (idxForIORedir - 1) }
        let info := removeArgument info (idxForIORedir - 2) true
        removeArgument info (idxForIORedir - 1) false
      else info
    else info
  else info

/-- The C function `parseCmd(cmdInput, info)` in a process whose pid is `rawPid`, with the
global `gState` passed in and returned. -/
def parseCmd (rawPid : Nat) (cmdInput : List Char) (info : cmdInfo)
    (gState : shellState) : cmdInfo × shellState :=
  match strtok_r cmdInput cmdDelim with
  | none => ({ info with isIgnored := true, argsCount := 0 }, gState)
  | some (token, savePtr) =>
    let info := { info with args := writeSlot info.args 0 (some (expandDoubleDollar rawPid token)) }
    let info := { info with command := readSlot info.args 0 }
    if (info.command.getD []).head? = some '#' then
      ({ info with isIgnored := true, argsCount := 1 }, gState)
    else
      let r := parseArgsLoop rawPid savePtr.length savePtr info.args 1
      let info := { info with args := r.1, argsCount := r.2 }
      let b := parseBackground info r.2
      let info := parseRedirect b.1 b.2
      (info, { gState with currentCmd := some info })

/-- The tokens `strtok_r` returns on successive calls, in order. -/
def tokensLoop : Nat → List Char → List (List Char)
  | 0, _ => []
  | fuel + 1, s =>
    match strtok_r s cmdDelim with
    | none => []
    | some (token, savePtr) => token :: tokensLoop fuel savePtr

/-- The tokens of an input line as `parseCmd` sees them. -/
def tokens (line : List Char) : List (List Char) := tokensLoop line.length line

/-- The struct `parseCmd` has built when its argument loop ends, for a line
with tokens `toks`: every token expanded and stored in order. -/
def tokenInfo (rawPid : Nat) (toks : List (List Char)) : cmdInfo :=
  { command := toks.head?.map (expandDoubleDollar rawPid),
    args := toks.map (fun t => some (expandDoubleDollar rawPid t)),
    isIgnored := false, isBackground := false, argsCount := toks.length,
    inputRedirect := none, outputRedirect := none }

/-- The part of `parseCmd` after the argument loop: background check, then
redirection scan. -/
def finishParse (info : cmdInfo) : cmdInfo :=
  parseRedirect (parseBackground info info.argsCount).1 (parseBackground info info.argsCount).2

/-- The argument vector `execvp(info->args[0], info->args)` reads: the slots
before the first `NULL`. -/
def argv (info : cmdInfo) : List (List Char) :=
  (info.args.takeWhile Option.isSome).filterMap id

/-- The state `getNewShellState` builds. -/
def getNewShellState : shellState :=
  { status := "exit value 0\n".toList, currentDir := [], head := [],
    backgroundIgnored := false, currentCmd := none }

/-! ## Outside world -/

/-- How a child terminated, as read from a wait status with `WIFEXITED`,
`WEXITSTATUS` and `WTERMSIG`. -/
inductive ChildStatus where
  | exited (code : Nat)
  | signaled (sig : Nat)
  deriving DecidableEq

/-- What `waitpid(pid, &status, WNOHANG)` reports: `running` is the return
value 0, `terminated` a positive return value with the status written,
`failed` the return value -1 with the status variable left as it was. -/
inductive WaitResult where
  | running
  | terminated (st : ChildStatus)
  | failed
  deriving DecidableEq

/-- The signals the shell names. -/
inductive Signal where
  | SIGINT
  | SIGTSTP
  | SIGTERM
  deriving DecidableEq

/-- The dispositions the shell installs. -/
inductive Disposition where
  | ignore
  | default
  | handler
  deriving DecidableEq

/-- The formatted messages the shell writes to standard output, one
constructor per format string of the source. -/
inductive Message where
  | bgDoneExit (pid : Int) (code : Nat)
  | bgDoneSignal (pid : Int) (sig : Nat)
  | status (text : List Char)
  | errorForking
  | cannotOpenInput (path : List Char)
  | cannotOpenOutput (path : List Char)
  | noSuchFile (arg0 : List Char)
  | backgroundPid (pid : Int)
  | terminatedBySignal (sig : Nat)
  | enteringForegroundOnly
  | exitingForegroundOnly
  deriving DecidableEq

/-- The text `%i` prints for an `int`. -/
def fmtInt : Int → List Char
  | Int.ofNat n => Nat.toDigits 10 n
  | Int.negSucc n => '-' :: Nat.toDigits 10 (n + 1)

/-- The characters a message puts on standard output. -/
def Message.text : Message → List Char
  | .bgDoneExit pid code =>
    "background pid ".toList ++ fmtInt pid ++ " is done: exit value ".toList ++
      Nat.toDigits 10 code ++ ['\n']
  | .bgDoneSignal pid sig =>
    "background pid ".toList ++ fmtInt pid ++ " is done: terminated by signal ".toList ++
      Nat.toDigits 10 sig ++ ['\n']
  | .status text => text
  | .errorForking => "Error forking!\n".toList
  | .cannotOpenInput path => "cannot open ".toList ++ path ++ " for input\n".toList
  | .cannotOpenOutput path => "cannot open ".toList ++ path ++ " for output\n".toList
  | .noSuchFile arg0 => arg0 ++ ": no such file or directory\n".toList
  | .backgroundPid pid => "background pid is ".toList ++ fmtInt pid ++ ['\n']
  | .terminatedBySignal sig => "terminated by signal ".toList ++ Nat.toDigits 10 sig ++ ['\n']
  | .enteringForegroundOnly =>
    "Entering foreground-only mode (& is now ignored)\n".toList.take 49
  | .exitingForegroundOnly => "Exiting foreground-only mode\n".toList.take 29

/-- What a function does to the outside world, one constructor per call.
`openRead path` is `open(path, O_RDONLY)` and `openWrite path` is
`open(path, O_WRONLY | O_CREAT | O_TRUNC, ...)`, which creates or truncates the
file; `kill`, `sigaction` and the two mask calls name their signal. -/
inductive Effect where
  | print (m : Message)
  | fork
  | kill (pid : Int) (sig : Signal)
  | waitNoHang (pid : Int)
  | waitBlocking (pid : Int)
  | chdir (path : List Char)
  | setenv (name value : List Char)
  | openRead (path : List Char)
  | openWrite (path : List Char)
  | dup2 (fd : Int) (target : Nat)
  | sigaction (sig : Signal) (d : Disposition)
  | sigBlock (sig : Signal)
  | sigUnblock (sig : Signal)
  | execvp (file : Option (List Char)) (args : List (List Char))
  deriving DecidableEq

/-- The values the system calls of `handleCmd` and `reapBackgroundProcesses`
return. `execErrno = none` means `execvp` succeeded (it does not return);
`pidStatus0` is the indeterminate initial content of the local `pidStatus`. -/
structure Sys where
  home : Option (List Char)
  spawnPid : Int
  openFd : List Char → Int
  execErrno : Option Nat
  childStatus : ChildStatus
  waitNoHang : Int → WaitResult
  waitAfterKill : Int → WaitResult
  pidStatus0 : ChildStatus

/-- The value of `ENOENT`. -/
def ENOENT : Nat := 2

/-- How a call of `handleCmd` ends in the process that runs it. -/
inductive Outcome where
  | returned (gState : shellState)
  | exited (code : Nat)
  | replaced
  | fault
  deriving DecidableEq

/-! ## Background registry -/

/-- The local variables of `reapBackgroundProcesses` that survive an
iteration, with the list `gState->head`. `prev`, when set, is the position in
`head` of the node it points to. -/
structure ReapState where
  head : List Int
  prev : Option Nat
  pidStatus : ChildStatus
  deriving DecidableEq

/-- The message a verbose reap prints for `pidToCheck` given `pidStatus`. -/
def doneMessage (pidToCheck : Int) : ChildStatus → Message
  | .exited code => .bgDoneExit pidToCheck code
  | .signaled sig => .bgDoneSignal pidToCheck sig

/-- The variable `pidStatus` after a `waitpid` call with result `r`. -/
def statusAfter (r : WaitResult) (pidStatus : ChildStatus) : ChildStatus :=
  match r with
  | .terminated st => st
  | _ => pidStatus

/-- The `while (curr != NULL)` loop of `reapBackgroundProcesses`. The first
list is the chain from `curr`. No statement of the loop assigns `prev` and none
writes a `next` field while `prev` is `NULL`, so `curr = curr->next` walks the
chain as it was on entry; the freed node's `next` is read as it was when
freed. -/
def reapLoop (sys : Sys) (verbose killall : Bool) :
    List Int → ReapState → ReapState × List Effect
  | [], st => (st, [])
  | pidToCheck :: next, st =>
    let r := sys.waitNoHang pidToCheck
    let pidStatus := statusAfter r st.pidStatus
    if r ≠ .running ∧ verbose = true then
      let head :=
        match st.prev with
        | none => next
        | some i => st.head.take (i + 1) ++ next
      let rest := reapLoop sys verbose killall next
        { st with head := head, pidStatus := pidStatus }
      (rest.1, .waitNoHang pidToCheck :: .print (doneMessage pidToCheck pidStatus) :: rest.2)
    else if r = .running ∧ killall = true then
      let rest := reapLoop sys verbose killall next
        { st with pidStatus := statusAfter (sys.waitAfterKill pidToCheck) pidStatus }
      (rest.1, .waitNoHang pidToCheck :: .kill pidToCheck .SIGTERM ::
        .waitNoHang pidToCheck :: rest.2)
    else
      let rest := reapLoop sys verbose killall next { st with pidStatus := pidStatus }
      (rest.1, .waitNoHang pidToCheck :: rest.2)

/-- The C function `reapBackgroundProcesses(verbose, killall)`: the new global state and the
effects, in order. -/
def reapBackgroundProcesses (sys : Sys) (verbose killall : Bool)
    (gState : shellState) : shellState × List Effect :=
  let r := reapLoop sys verbose killall gState.head
    { head := gState.head, prev := none, pidStatus := sys.pidStatus0 }
  ({ gState with head := r.1.head }, r.2)

/-! ## Command executor -/

/-- The walk `while (curr->next != NULL) curr = curr->next;` followed by
`curr->next = newNode`, started at a node holding `pid` whose successors hold
`rest`: the chain from that node afterwards. -/
def attachLast (pid : Int) : List Int → Int → List Int
  | [], newPid => [pid, newPid]
  | next :: rest, newPid => pid :: attachLast next rest newPid

/-- Storing a new node for `spawnPid` in the list `gState->head` (source lines
286-297): it becomes the head of an empty list, and otherwise is attached
after the last node. -/
def registerPid (head : List Int) (spawnPid : Int) : List Int :=
  match head with
  | [] => [spawnPid]
  | pid :: rest => attachLast pid rest spawnPid

/-- The `default:` branch of the `switch` in `handleCmd`. -/
def handleCmdDefault (sys : Sys) (background : Bool) (gState : shellState) :
    shellState × List Effect :=
  if background then
    ({ gState with head := registerPid gState.head sys.spawnPid },
     [.print (.backgroundPid sys.spawnPid)])
  else
    match sys.childStatus with
    | .exited exitStatus =>
      ({ gState with status := "exit value ".toList ++ Nat.toDigits 10 exitStatus ++ ['\n'] },
       [.sigBlock .SIGTSTP, .waitBlocking sys.spawnPid, .sigUnblock .SIGTSTP])
    | .signaled exitSignal =>
      ({ gState with
          status := "terminated by signal ".toList ++ Nat.toDigits 10 exitSignal ++ ['\n'] },
       [.sigBlock .SIGTSTP, .waitBlocking sys.spawnPid, .sigUnblock .SIGTSTP,
        .print (.terminatedBySignal exitSignal)])

/-- The redirection part of `case 0:` in `handleCmd`. The result is `none`
when the child called `exit(EXIT_FAILURE)` because an `open` failed. -/
def childRedirect (sys : Sys) (info : cmdInfo) : Option Unit × List Effect :=
  let inStep : Option Unit × List Effect :=
    match info.inputRedirect with
    | none => (some (), [])
    | some path =>
      if sys.openFd path = -1 then (none, [.openRead path, .print (.cannotOpenInput path)])
      else (some (), [.openRead path, .dup2 (sys.openFd path) 0])
  match inStep.1 with
  | none => inStep
  | some _ =>
    match info.outputRedirect with
    | none => inStep
    | some path =>
      if sys.openFd path = -1 then
        (none, inStep.2 ++ [.openWrite path, .print (.cannotOpenOutput path)])
      else (some (), inStep.2 ++ [.openWrite path, .dup2 (sys.openFd path) 1])

/-- The path `"/dev/null"`. -/
def devNull : List Char := "/dev/null".toList

/-- The signal and null-device part of `case 0:` in `handleCmd`. -/
def childSetup (sys : Sys) (info : cmdInfo) (background : Bool) : List Effect :=
  if background then
    [.sigaction .SIGTSTP .ignore] ++
    (if info.inputRedirect = none then [.openRead devNull, .dup2 (sys.openFd devNull) 0]
     else []) ++
    (if info.outputRedirect = none then [.openWrite devNull, .dup2 (sys.openFd devNull) 1]
     else [])
  else
    [.sigaction .SIGINT .default, .sigaction .SIGTSTP .ignore]

/-- The C function `handleCmd(info)` in the process in which `fork()` returned
`sys.spawnPid`: how the call ends and the effects, in order. A `NULL` handed to
`strcmp`, `chdir` or `strcpy` ends the call in `fault`. -/
def handleCmd (sys : Sys) (info : cmdInfo) (gState : shellState) :
    Outcome × List Effect :=
  if info.isIgnored then (.returned gState, [])
  else
    match info.command with
    | none => (.fault, [])
    | some command =>
      if command = "cd".toList then
        if info.argsCount = 1 then
          match sys.home with
          | none => (.fault, [])
          | some homePath =>
            (.returned { gState with currentDir := homePath },
             [.chdir homePath, .setenv "PWD".toList homePath])
        else
          match readSlot info.args 1 with
          | none => (.fault, [])
          | some path =>
            (.returned { gState with currentDir := path },
             [.chdir path, .setenv "PWD".toList path])
      else if command = "exit".toList then
        let r := reapBackgroundProcesses sys true false gState
        (.exited 0, r.2)
      else if command = "status".toList then
        (.returned gState, [.print (.status gState.status)])
      else
        let background := info.isBackground && !gState.backgroundIgnored
        if sys.spawnPid = -1 then
          (.returned gState, [.fork, .print .errorForking])
        else if sys.spawnPid = 0 then
          let redir := childRedirect sys info
          match redir.1 with
          | none => (.exited 1, .fork :: redir.2)
          | some _ =>
            let pre := .fork :: (redir.2 ++ childSetup sys info background ++
              [.execvp (readSlot info.args 0) (argv info)])
            match sys.execErrno with
            | none => (.replaced, pre)
            | some errno =>
              if errno = ENOENT then
                (.exited 1, pre ++ [.print (.noSuchFile ((readSlot info.args 0).getD []))])
              else
                let r := handleCmdDefault sys background gState
                (.returned r.1, pre ++ r.2)
        else
          let r := handleCmdDefault sys background gState
          (.returned r.1, .fork :: r.2)

/-- The C function `handleSIGTSTP(signo)`: the new global state and what is written. -/
def handleSIGTSTP (gState : shellState) : shellState × List Effect :=
  if gState.backgroundIgnored then
    ({ gState with backgroundIgnored := false }, [.print .exitingForegroundOnly])
  else
    ({ gState with backgroundIgnored := true }, [.print .enteringForegroundOnly])

/-! ## Reading a list of effects -/

/-- The messages among the effects, in order. -/
def printed (trace : List Effect) : List Message :=
  trace.filterMap (fun e => match e with
    | .print m => some m
    | _ => none)

/-- The pids among the effects that were sent a signal, in order. -/
def killed (trace : List Effect) : List Int :=
  trace.filterMap (fun e => match e with
    | .kill pid _ => some pid
    | _ => none)

/-- A system in which every background process is still running. -/
def sysAllRunning : Sys :=
  { home := some "/root".toList
    spawnPid := 300
    openFd := fun _ => 3
    execErrno := none
    childStatus := .exited 0
    waitNoHang := fun _ => .running
    waitAfterKill := fun _ => .running
    pidStatus0 := .exited 0 }

/-- A system in which process 2 has exited with code 0 and every other
background process is still running. -/
def sysSecondDone : Sys :=
  { home := some "/root".toList
    spawnPid := 300
    openFd := fun _ => 3
    execErrno := none
    childStatus := .exited 0
    waitNoHang := fun p => if p = 2 then .terminated (.exited 0) else .running
    waitAfterKill := fun _ => .running
    pidStatus0 := .exited 0 }

/-- A system in which process 5 has exited with code 3, process 6 was killed
by signal 15 and every other background process is still running. -/
def sysTwoDone : Sys :=
  { home := some "/root".toList
    spawnPid := 300
    openFd := fun _ => 3
    execErrno := none
    childStatus := .exited 0
    waitNoHang := fun p =>
      if p = 5 then .terminated (.exited 3)
      else if p = 6 then .terminated (.signaled 15) else .running
    waitAfterKill := fun _ => .running
    pidStatus0 := .exited 0 }

/-- The C function `freeCmd(cmd)`: the strings handed to `free`, in order
(`free(NULL)` releases nothing): the two redirection targets, then the slots
`args[0]` to `args[argsCount - 1]`. -/
def freeCmd (cmd : cmdInfo) : List (List Char) :=
  cmd.outputRedirect.toList ++ cmd.inputRedirect.toList ++
    ((List.range cmd.argsCount.toNat).filterMap (fun i => readSlot cmd.args i))

/-- The maximal runs of characters other than the space, in order, as the
specification words the splitting of a line for the space as only separator. -/
def spaceRuns : List Char → List (List Char)
  | [] => []
  | c :: cs =>
    if c = ' ' then spaceRuns cs
    else
      match cs with
      | [] => [[c]]
      | d :: _ => if d = ' ' then [c] :: spaceRuns cs else consFirst c (spaceRuns cs)

/-- The value of `EACCES`. -/
def EACCES : Nat := 13

/-- A system seen from the forked child (`fork()` returned 0) in which `execvp`
fails with `EACCES`. -/
def sysChildExecDenied : Sys :=
  { home := some "/root".toList
    spawnPid := 0
    openFd := fun _ => 3
    execErrno := some EACCES
    childStatus := .exited 3
    waitNoHang := fun _ => .running
    waitAfterKill := fun _ => .running
    pidStatus0 := .exited 0 }

/-- A system seen from the shell in which the child got pid 301 and every
background process is still running. -/
def sysSecondLaunch : Sys :=
  { home := some "/root".toList
    spawnPid := 301
    openFd := fun _ => 3
    execErrno := none
    childStatus := .exited 0
    waitNoHang := fun _ => .running
    waitAfterKill := fun _ => .running
    pidStatus0 := .exited 0 }

/-- A system seen from the shell in which the child got pid 300 and exits with
code 7. -/
def sysChildExitsSeven : Sys :=
  { home := some "/root".toList
    spawnPid := 300
    openFd := fun _ => 3
    execErrno := none
    childStatus := .exited 7
    waitNoHang := fun _ => .running
    waitAfterKill := fun _ => .running
    pidStatus0 := .exited 0 }

/-- Whether an effect is a call of `kill`. -/
def isKill : Effect → Bool
  | .kill _ _ => true
  | _ => false

/-- Size in bytes of the buffer `expanded` (`calloc(2049, 1)`). -/
def expandedBytes : Nat := 2049

/-- Size in bytes of the buffer `pid` (`calloc(10, 1)`). -/
def pidBytes : Nat := 10

/-- Number of slots of the array `args` (`char* args[513]`). -/
def argsSlots : Nat := 513

/-- The loop of `expandDoubleDollar` with the buffer `expanded`: the two
`strncpy` calls of an iteration write up to offset
`expanded.length + nBytes + pid.length`, the final `strcpy` writes the rest of
the token and a NUL. The result is `none` when a write passes the end of the
buffer, where the source has no defined behaviour. -/
def expandLoopChecked (pid : List Char) : Nat → List Char → List Char → Option (List Char)
  | 0, tokenPos, expanded =>
    if expanded.length + tokenPos.length + 1 ≤ expandedBytes then some (expanded ++ tokenPos)
    else none
  | fuel + 1, tokenPos, expanded =>
    match strstr tokenPos needle with
    | none =>
      if expanded.length + tokenPos.length + 1 ≤ expandedBytes then
        some (expanded ++ tokenPos)
      else none
    | some nBytes =>
      if expanded.length + nBytes + pid.length ≤ expandedBytes then
        expandLoopChecked pid fuel (tokenPos.drop (nBytes + 2))
          (expanded ++ tokenPos.take nBytes ++ pid)
      else none

/-- The C function `expandDoubleDollar(token)` with its two buffers: `sprintf`
writes the pid text and a NUL into `pid`, the loop writes into `expanded`. The
result is `none` when either buffer is overrun. -/
def expandDoubleDollarChecked (rawPid : Nat) (token : List Char) : Option (List Char) :=
  if (pidString rawPid).length + 1 ≤ pidBytes then
    expandLoopChecked (pidString rawPid) token.length token []
  else none

/-- The argument loop of `parseCmd` with the array `args[513]`: the store
`args[argCount] = ...` needs `argCount < 513`, and every token goes through
`expandDoubleDollar` with its buffers. The result is `none` when a buffer or
the array is overrun. -/
def parseArgsLoopChecked (rawPid : Nat) :
    Nat → List Char → List (Option (List Char)) → Nat →
      Option (List (Option (List Char)) × Nat)
  | 0, _, args, argCount => some (args, argCount)
  | fuel + 1, savePtr, args, argCount =>
    match strtok_r savePtr cmdDelim with
    | none => some (args, argCount)
    | some (token, savePtr') =>
      match expandDoubleDollarChecked rawPid token with
      | none => none
      | some expandedToken =>
        if argCount < argsSlots then
          parseArgsLoopChecked rawPid fuel savePtr'
            (writeSlot args argCount (some expandedToken)) (argCount + 1)
        else none

/-- The C function `parseCmd(cmdInput, info)` with the buffers of
`expandDoubleDollar` and the array `args[513]`: `none` when one of them is
overrun, and otherwise the struct and global state `parseCmd` yields. -/
def parseCmdChecked (rawPid : Nat) (cmdInput : List Char) (info : cmdInfo)
    (gState : shellState) : Option (cmdInfo × shellState) :=
  match strtok_r cmdInput cmdDelim with
  | none => some ({ info with isIgnored := true, argsCount := 0 }, gState)
  | some (token, savePtr) =>
    match expandDoubleDollarChecked rawPid token with
    | none => none
    | some expandedToken =>
      let info := { info with args := writeSlot info.args 0 (some expandedToken) }
      let info := { info with command := readSlot info.args 0 }
      if (info.command.getD []).head? = some '#' then
        some ({ info with isIgnored := true, argsCount := 1 }, gState)
      else
        match parseArgsLoopChecked rawPid savePtr.length savePtr info.args 1 with
        | none => none
        | some r =>
          let info := { info with args := r.1, argsCount := r.2 }
          let b := parseBackground info r.2
          let info := parseRedirect b.1 b.2
          some (info, { gState with currentCmd := some info })

/-- How far `reapLoopChecked` got: the state and effects up to the end of the
loop or up to the read of a freed node, and whether that read was reached. -/
structure ReapRun where
  state : ReapState
  trace : List Effect
  readFreed : Bool
  deriving DecidableEq

/-- The loop of `reapBackgroundProcesses` with the heap: after a removal the
node is freed (`free(curr)`, line 477) and the next statement reads its field
(`curr = curr->next`, line 484). The run stops there with `readFreed` set,
since the source has no defined behaviour from that read on. -/
def reapLoopChecked (sys : Sys) (verbose killall : Bool) :
    List Int → ReapState → ReapRun
  | [], st => { state := st, trace := [], readFreed := false }
  | pidToCheck :: next, st =>
    let r := sys.waitNoHang pidToCheck
    let pidStatus := statusAfter r st.pidStatus
    if r ≠ .running ∧ verbose = true then
      let head :=
        match st.prev with
        | none => next
        | some i => st.head.take (i + 1) ++ next
      { state := { st with head := head, pidStatus := pidStatus },
        trace := [.waitNoHang pidToCheck, .print (doneMessage pidToCheck pidStatus)],
        readFreed := true }
    else if r = .running ∧ killall = true then
      let rest := reapLoopChecked sys verbose killall next
        { st with pidStatus := statusAfter (sys.waitAfterKill pidToCheck) pidStatus }
      { rest with trace := .waitNoHang pidToCheck :: .kill pidToCheck .SIGTERM ::
          .waitNoHang pidToCheck :: rest.trace }
    else
      let rest := reapLoopChecked sys verbose killall next { st with pidStatus := pidStatus }
      { rest with trace := .waitNoHang pidToCheck :: rest.trace }

/-- The C function `reapBackgroundProcesses(verbose, killall)` with the heap. -/
def reapBackgroundProcessesChecked (sys : Sys) (verbose killall : Bool)
    (gState : shellState) : ReapRun :=
  reapLoopChecked sys verbose killall gState.head
    { head := gState.head, prev := none, pidStatus := sys.pidStatus0 }

/-- The line of `n` tokens `a`, each followed by one space. -/
def manyTokens (n : Nat) : List Char := (List.replicate n ['a', ' ']).flatten

/-! ## Token expander: lemmas -/

theorem strstr_needle_two (c d : Char) (rest : List Char) :
    strstr (c :: d :: rest) needle =
      if c = '$' ∧ d = '$' then some 0 else (strstr (d :: rest) needle).map (· + 1) := by
  by_cases hc : c = '$' <;> by_cases hd : d = '$' <;>
    simp [strstr, startsWith, needle, hc, hd]

theorem strstr_needle_one (c : Char) : strstr [c] needle = none := by
  simp [strstr, startsWith, needle]

theorem strstr_needle_nil : strstr [] needle = none := by
  simp [strstr, needle]

theorem replace_of_strstr_none (pid : List Char) :
    ∀ s : List Char, strstr s needle = none → replaceDoubleDollar pid s = s
  | [], _ => rfl
  | [_], _ => rfl
  | c :: d :: rest, h => by
    rw [strstr_needle_two] at h
    by_cases hcd : c = '$' ∧ d = '$'
    · simp [hcd] at h
    · rw [if_neg hcd] at h
      have h' : strstr (d :: rest) needle = none := by
        cases hs : strstr (d :: rest) needle with
        | none => rfl
        | some n => simp [hs] at h
      simp only [replaceDoubleDollar, if_neg hcd]
      rw [replace_of_strstr_none pid (d :: rest) h']

theorem replace_of_strstr_some (pid : List Char) :
    ∀ (s : List Char) (n : Nat), strstr s needle = some n →
      n + 2 ≤ s.length ∧
      replaceDoubleDollar pid s = s.take n ++ pid ++ replaceDoubleDollar pid (s.drop (n + 2))
  | [], n, h => by simp [strstr_needle_nil] at h
  | [c], n, h => by simp [strstr_needle_one] at h
  | c :: d :: rest, n, h => by
    rw [strstr_needle_two] at h
    by_cases hcd : c = '$' ∧ d = '$'
    · rw [if_pos hcd] at h
      cases h
      simp [replaceDoubleDollar, hcd]
    · rw [if_neg hcd] at h
      cases hs : strstr (d :: rest) needle with
      | none => simp [hs] at h
      | some m =>
        simp [hs] at h
        subst h
        have ih := replace_of_strstr_some pid (d :: rest) m hs
        refine ⟨by simpa using ih.1, ?_⟩
        simp only [replaceDoubleDollar, if_neg hcd]
        rw [ih.2]
        simp

theorem expandLoop_eq (pid : List Char) :
    ∀ (fuel : Nat) (tokenPos expanded : List Char), tokenPos.length ≤ fuel →
      expandLoop pid fuel tokenPos expanded = expanded ++ replaceDoubleDollar pid tokenPos
  | 0, tokenPos, expanded, h => by
    have : tokenPos = [] := List.length_eq_zero.mp (Nat.le_zero.mp h)
    subst this
    simp [expandLoop, replaceDoubleDollar]
  | fuel + 1, tokenPos, expanded, h => by
    cases hs : strstr tokenPos needle with
    | none =>
      simp only [expandLoop, hs]
      rw [replace_of_strstr_none pid tokenPos hs]
    | some n =>
      simp only [expandLoop, hs]
      obtain ⟨hlen, hrep⟩ := replace_of_strstr_some pid tokenPos n hs
      rw [expandLoop_eq pid fuel _ _ (by simp only [List.length_drop]; omega), hrep]
      simp

theorem expand_eq_replace (rawPid : Nat) (token : List Char) :
    expandDoubleDollar rawPid token = replaceDoubleDollar (pidString rawPid) token := by
  unfold expandDoubleDollar
  rw [expandLoop_eq _ _ _ _ (le_refl _)]
  simp

theorem digitChar_isDigit : ∀ m : Nat, m < 10 → (Nat.digitChar m).isDigit = true := by
  decide

theorem toDigitsCore_isDigit :
    ∀ (fuel n : Nat) (acc : List Char), (∀ c ∈ acc, c.isDigit = true) →
      ∀ c ∈ Nat.toDigitsCore 10 fuel n acc, c.isDigit = true
  | 0, _, acc, h => by simpa [Nat.toDigitsCore] using h
  | fuel + 1, n, acc, h => by
    have hd : (Nat.digitChar (n % 10)).isDigit = true :=
      digitChar_isDigit _ (Nat.mod_lt _ (by decide))
    have hacc : ∀ c ∈ Nat.digitChar (n % 10) :: acc, c.isDigit = true := by
      intro c hc
      rcases List.mem_cons.mp hc with rfl | hc
      · exact hd
      · exact h c hc
    unfold Nat.toDigitsCore
    by_cases hz : n / 10 = 0
    · simpa [hz] using hacc
    · simp only [hz, if_false]
      exact toDigitsCore_isDigit fuel (n / 10) _ hacc

theorem toDigitsCore_ne_nil (fuel n : Nat) (acc : List Char) :
    Nat.toDigitsCore 10 (fuel + 1) n acc ≠ [] := by
  induction fuel generalizing n acc with
  | zero =>
    unfold Nat.toDigitsCore
    by_cases hz : n / 10 = 0 <;> simp [hz, Nat.toDigitsCore]
  | succ fuel ih =>
    unfold Nat.toDigitsCore
    by_cases hz : n / 10 = 0
    · simp [hz]
    · simp only [hz, if_false]
      exact ih _ _

theorem pidString_ne_nil (rawPid : Nat) : pidString rawPid ≠ [] :=
  toDigitsCore_ne_nil _ _ _

theorem pidString_isDigit (rawPid : Nat) : ∀ c ∈ pidString rawPid, c.isDigit = true :=
  toDigitsCore_isDigit _ _ _ (by simp)

theorem isPidText_pidString (rawPid : Nat) : IsPidText (pidString rawPid) :=
  ⟨pidString_ne_nil rawPid, pidString_isDigit rawPid⟩

theorem IsPidText.head {pid : List Char} (h : IsPidText pid) :
    ∃ c r, pid = c :: r ∧ c.isDigit = true := by
  obtain ⟨hne, hd⟩ := h
  cases pid with
  | nil => exact absurd rfl hne
  | cons c r => exact ⟨c, r, rfl, hd c (by simp)⟩

theorem count_cons (c : Char) (l : List Char) :
    countDoubleDollar (c :: l) =
      (if c = '$' ∧ l.head? = some '$' then 1 else 0) + countDoubleDollar l := by
  cases l with
  | nil => simp [countDoubleDollar]
  | cons d rest => simp [countDoubleDollar]

theorem count_digits_append {pid : List Char} (h : ∀ c ∈ pid, c.isDigit = true)
    (l : List Char) : countDoubleDollar (pid ++ l) = countDoubleDollar l := by
  induction pid with
  | nil => rfl
  | cons c r ih =>
    have hc : c ≠ '$' := by
      intro hc
      have := h c (by simp)
      rw [hc] at this
      exact absurd this (by decide)
    rw [List.cons_append, count_cons, ih (fun x hx => h x (List.mem_cons_of_mem _ hx))]
    simp [hc]

theorem replace_count {pid : List Char} (hp : IsPidText pid) :
    ∀ s : List Char, countDoubleDollar (replaceDoubleDollar pid s) = 0 ∧
      ∀ r, replaceDoubleDollar pid s = '$' :: r →
        ∃ s', s = '$' :: s' ∧ s'.head? ≠ some '$'
  | [] => by simp [replaceDoubleDollar, countDoubleDollar]
  | [c] => by
    refine ⟨by simp [replaceDoubleDollar, countDoubleDollar], ?_⟩
    intro r h
    simp only [replaceDoubleDollar, List.cons.injEq] at h
    exact ⟨[], by rw [h.1], by simp⟩
  | c :: d :: rest => by
    by_cases hcd : c = '$' ∧ d = '$'
    · simp only [replaceDoubleDollar, if_pos hcd]
      refine ⟨?_, ?_⟩
      · rw [count_digits_append hp.2]
        exact (replace_count hp rest).1
      · intro r h
        obtain ⟨x, y, hxy, hx⟩ := hp.head
        rw [hxy] at h
        simp only [List.cons_append, List.cons.injEq] at h
        rw [h.1] at hx
        exact absurd hx (by decide)
    · simp only [replaceDoubleDollar, if_neg hcd]
      have ih := replace_count hp (d :: rest)
      refine ⟨?_, ?_⟩
      · rw [count_cons, ih.1]
        have : ¬(c = '$' ∧ (replaceDoubleDollar pid (d :: rest)).head? = some '$') := by
          rintro ⟨hc, hh⟩
          cases hr : replaceDoubleDollar pid (d :: rest) with
          | nil => simp [hr] at hh
          | cons x r =>
            simp [hr] at hh
            subst hh
            obtain ⟨s', hs', _⟩ := ih.2 r hr
            simp only [List.cons.injEq] at hs'
            exact hcd ⟨hc, hs'.1⟩
        simp [this]
      · intro r h
        simp only [List.cons.injEq] at h
        refine ⟨d :: rest, by rw [h.1], ?_⟩
        intro hd
        simp at hd
        exact hcd ⟨h.1, hd⟩

theorem segments_ne_nil : ∀ s : List Char, segments s ≠ []
  | [] => by simp [segments]
  | [c] => by simp [segments]
  | c :: d :: rest => by
    by_cases hcd : c = '$' ∧ d = '$'
    · simp [segments, hcd]
    · simp only [segments, if_neg hcd]
      cases segments (d :: rest) <;> simp [consFirst]

theorem joinWith_nil_cons (sep : List Char) {segs : List (List Char)} (h : segs ≠ []) :
    joinWith sep ([] :: segs) = sep ++ joinWith sep segs := by
  cases segs with
  | nil => exact absurd rfl h
  | cons t rest => simp [joinWith]

theorem joinWith_consFirst (sep : List Char) (c : Char) {segs : List (List Char)}
    (h : segs ≠ []) : joinWith sep (consFirst c segs) = c :: joinWith sep segs := by
  cases segs with
  | nil => exact absurd rfl h
  | cons t rest =>
    cases rest with
    | nil => simp [consFirst, joinWith]
    | cons u rest => simp [consFirst, joinWith]

theorem joinWith_segments (pid : List Char) :
    ∀ s : List Char, joinWith needle (segments s) = s ∧
      joinWith pid (segments s) = replaceDoubleDollar pid s
  | [] => by simp [segments, joinWith, replaceDoubleDollar]
  | [c] => by simp [segments, joinWith, replaceDoubleDollar]
  | c :: d :: rest => by
    by_cases hcd : c = '$' ∧ d = '$'
    · have ih := joinWith_segments pid rest
      simp only [segments, replaceDoubleDollar, if_pos hcd]
      rw [joinWith_nil_cons _ (segments_ne_nil rest), joinWith_nil_cons _ (segments_ne_nil rest),
        ih.1, ih.2]
      simp [needle, hcd.1, hcd.2]
    · have ih := joinWith_segments pid (d :: rest)
      simp only [segments, replaceDoubleDollar, if_neg hcd]
      rw [joinWith_consFirst _ _ (segments_ne_nil _), joinWith_consFirst _ _ (segments_ne_nil _),
        ih.1, ih.2]
      simp

theorem segments_clean :
    ∀ s : List Char, (∀ seg ∈ segments s, countDoubleDollar seg = 0) ∧
      ∀ r rest, segments s = ('$' :: r) :: rest →
        ∃ s', s = '$' :: s' ∧ s'.head? ≠ some '$'
  | [] => by simp [segments, countDoubleDollar]
  | [c] => by
    refine ⟨by simp [segments, countDoubleDollar], ?_⟩
    intro r rest h
    simp only [segments, List.cons.injEq] at h
    exact ⟨[], by rw [h.1.1], by simp⟩
  | c :: d :: rest => by
    by_cases hcd : c = '$' ∧ d = '$'
    · simp only [segments, if_pos hcd]
      refine ⟨?_, ?_⟩
      · intro seg hseg
        rcases List.mem_cons.mp hseg with rfl | hseg
        · rfl
        · exact (segments_clean rest).1 seg hseg
      · intro r rest' h
        simp at h
    · simp only [segments, if_neg hcd]
      have ih := segments_clean (d :: rest)
      cases hs : segments (d :: rest) with
      | nil => exact absurd hs (segments_ne_nil _)
      | cons f fs =>
        rw [hs] at ih
        simp only [consFirst]
        refine ⟨?_, ?_⟩
        · intro seg hseg
          rcases List.mem_cons.mp hseg with rfl | hseg
          · rw [count_cons, ih.1 f (by simp)]
            have : ¬(c = '$' ∧ f.head? = some '$') := by
              rintro ⟨hc, hh⟩
              cases f with
              | nil => simp at hh
              | cons x r =>
                simp at hh
                subst hh
                obtain ⟨s', hs', _⟩ := ih.2 r fs rfl
                simp only [List.cons.injEq] at hs'
                exact hcd ⟨hc, hs'.1⟩
            simp [this]
          · exact ih.1 seg (List.mem_cons_of_mem _ hseg)
        · intro r rest' h
          simp only [List.cons.injEq] at h
          refine ⟨d :: rest, by rw [h.1.1], ?_⟩
          intro hd
          simp at hd
          exact hcd ⟨h.1.1, hd⟩

theorem replace_of_count_zero (pid : List Char) :
    ∀ s : List Char, countDoubleDollar s = 0 → replaceDoubleDollar pid s = s
  | [], _ => rfl
  | [_], _ => rfl
  | c :: d :: rest, h => by
    have hcd : ¬(c = '$' ∧ d = '$') := by
      intro hcd
      simp [countDoubleDollar, hcd] at h
    have hrest : countDoubleDollar (d :: rest) = 0 := by
      simp only [countDoubleDollar, if_neg hcd] at h
      omega
    simp only [replaceDoubleDollar, if_neg hcd]
    rw [replace_of_count_zero pid (d :: rest) hrest]

theorem expandLoopChecked_eq (pid : List Char) :
    ∀ (fuel : Nat) (tokenPos expanded : List Char), tokenPos.length ≤ fuel →
      expandLoopChecked pid fuel tokenPos expanded =
        if expanded.length + (replaceDoubleDollar pid tokenPos).length + 1 ≤ expandedBytes then
          some (expanded ++ replaceDoubleDollar pid tokenPos)
        else none
  | 0, tokenPos, expanded, h => by
    have : tokenPos = [] := List.length_eq_zero.mp (Nat.le_zero.mp h)
    subst this
    simp [expandLoopChecked, replaceDoubleDollar]
  | fuel + 1, tokenPos, expanded, h => by
    cases hs : strstr tokenPos needle with
    | none =>
      simp only [expandLoopChecked, hs]
      rw [replace_of_strstr_none pid tokenPos hs]
    | some n =>
      obtain ⟨hlen, hrep⟩ := replace_of_strstr_some pid tokenPos n hs
      simp only [expandLoopChecked, hs]
      rw [expandLoopChecked_eq pid fuel _ _ (by simp only [List.length_drop]; omega), hrep]
      have htake : (tokenPos.take n).length = n := by
        rw [List.length_take]; omega
      simp only [List.length_append, htake, List.append_assoc]
      by_cases hfit : expanded.length +
          (n + (pid.length + (replaceDoubleDollar pid (List.drop (n + 2) tokenPos)).length)) + 1 ≤
          expandedBytes
      · have h1 : expanded.length + n + pid.length ≤ expandedBytes := by omega
        have h2 : expanded.length + (n + pid.length) +
            (replaceDoubleDollar pid (List.drop (n + 2) tokenPos)).length + 1 ≤ expandedBytes := by
          omega
        rw [if_pos h1, if_pos h2, if_pos hfit]
      · rw [if_neg hfit]
        by_cases h1 : expanded.length + n + pid.length ≤ expandedBytes
        · have h2 : ¬ (expanded.length + (n + pid.length) +
              (replaceDoubleDollar pid (List.drop (n + 2) tokenPos)).length + 1 ≤ expandedBytes) := by
            omega
          rw [if_pos h1, if_neg h2]
        · rw [if_neg h1]

theorem expandChecked_eq (rawPid : Nat) (token : List Char) :
    expandDoubleDollarChecked rawPid token =
      if (pidString rawPid).length ≤ 9 ∧ (expandDoubleDollar rawPid token).length ≤ 2048 then
        some (expandDoubleDollar rawPid token)
      else none := by
  unfold expandDoubleDollarChecked
  rw [expandLoopChecked_eq _ _ _ _ (le_refl _), expand_eq_replace]
  simp only [pidBytes, expandedBytes, List.length_nil, List.nil_append, Nat.zero_add]
  by_cases hp : (pidString rawPid).length ≤ 9
  · by_cases hf : (replaceDoubleDollar (pidString rawPid) token).length ≤ 2048
    · rw [if_pos (by omega), if_pos (by omega), if_pos ⟨hp, hf⟩]
    · rw [if_pos (by omega), if_neg (by omega), if_neg (fun h => hf h.2)]
  · rw [if_neg (by omega), if_neg (fun h => hp h.1)]

theorem expandChecked_of_fits (rawPid : Nat) (token : List Char)
    (hpid : (pidString rawPid).length ≤ 9)
    (hfit : (expandDoubleDollar rawPid token).length ≤ 2048) :
    expandDoubleDollarChecked rawPid token = some (expandDoubleDollar rawPid token) := by
  rw [expandChecked_eq, if_pos ⟨hpid, hfit⟩]

theorem replace_dollars_length (pid : List Char) :
    ∀ k : Nat, (replaceDoubleDollar pid (List.replicate (2 * k) '$')).length = k * pid.length
  | 0 => by simp [replaceDoubleDollar]
  | k + 1 => by
    have h : List.replicate (2 * (k + 1)) '$' = '$' :: '$' :: List.replicate (2 * k) '$' := by
      rw [show 2 * (k + 1) = 2 * k + 1 + 1 by ring, List.replicate_succ, List.replicate_succ]
    rw [h]
    simp only [replaceDoubleDollar, and_self, if_true, List.length_append,
      replace_dollars_length pid k]
    ring

/-! ## Token expander: theorems -/

/-- C6 (amended). For every process id of at most 9 digits and every token whose
expansion has at most 2048 characters, `expandDoubleDollar(token)` stays inside
its buffers and returns the token with each `$$` met in a left-to-right scan
replaced by the decimal text of the process id, the replacement not being
rescanned and every other character kept in place: `a$$$b` becomes `a<pid>$b`,
the empty token yields the empty string, and a token without `$$` is returned
unchanged. -/
theorem expandDoubleDollar_replaces_each_placeholder (rawPid : Nat) (token : List Char)
    (hpid : (Nat.toDigits 10 rawPid).length ≤ 9)
    (hfit : (replaceDoubleDollar (Nat.toDigits 10 rawPid) token).length ≤ 2048) :
    expandDoubleDollarChecked rawPid token =
      some (replaceDoubleDollar (Nat.toDigits 10 rawPid) token) ∧
    expandDoubleDollarChecked rawPid "a$$$b".toList =
      some ('a' :: (Nat.toDigits 10 rawPid ++ "$b".toList)) ∧
    expandDoubleDollarChecked rawPid [] = some [] ∧
    (countDoubleDollar token = 0 → expandDoubleDollarChecked rawPid token = some token) := by
  have hpid' : (pidString rawPid).length ≤ 9 := hpid
  have key : ∀ t, (replaceDoubleDollar (pidString rawPid) t).length ≤ 2048 →
      expandDoubleDollarChecked rawPid t = some (replaceDoubleDollar (pidString rawPid) t) := by
    intro t ht
    rw [expandChecked_of_fits rawPid t hpid' (by rw [expand_eq_replace]; exact ht),
      expand_eq_replace]
  refine ⟨key token hfit, ?_, ?_, ?_⟩
  · have h1 : replaceDoubleDollar (pidString rawPid) "a$$$b".toList =
        'a' :: (pidString rawPid ++ "$b".toList) := by
      simp [replaceDoubleDollar]
    rw [key _ (by rw [h1]; simp; omega), h1]
    rfl
  · exact key [] (by simp [replaceDoubleDollar])
  · intro h
    have := key token hfit
    rwa [replace_of_count_zero _ _ h] at this

/-- C6 (amended), at the token `file.txt` and pid 4242. -/
theorem expandDoubleDollar_replaces_each_placeholder_witness :
    expandDoubleDollarChecked 4242 "file.txt".toList = some "file.txt".toList :=
  (expandDoubleDollar_replaces_each_placeholder 4242 "file.txt".toList (by decide)
    (by decide)).2.2.2 (by decide)

/-- C6 as stated fails on a long token: for the 1400 characters `$$...$` and pid
4242 the expansion has 2800 characters, the writes pass the end of the 2049
bytes of `expanded`, and the function has no defined result. -/
theorem expandDoubleDollar_overruns_expanded :
    (List.replicate 1400 '$').length = 1400 ∧
    (replaceDoubleDollar (Nat.toDigits 10 4242) (List.replicate 1400 '$')).length = 2800 ∧
    expandDoubleDollarChecked 4242 (List.replicate 1400 '$') = none := by
  have hl : (replaceDoubleDollar (pidString 4242) (List.replicate 1400 '$')).length = 2800 :=
    replace_dollars_length (pidString 4242) 700
  refine ⟨List.length_replicate _ _, hl, ?_⟩
  rw [expandChecked_eq, expand_eq_replace, hl]
  simp

/-- C7 (amended). For every process id of at most 9 digits and every token `T`
whose expansion has at most 2048 characters, `expandDoubleDollar(T)` stays
inside its buffers and its result holds no `$$`; `T` is its parts joined by
`$$`, the result is the same parts joined by the pid text, and no part holds a
`$$`, so removing the inserted pid texts from the result and the placeholders
from `T` leaves the same characters in the same order. For the odd run `$$$`
the result is the pid text followed by `$`. -/
theorem expandDoubleDollar_leaves_no_placeholder (rawPid : Nat) (T : List Char)
    (hpid : (Nat.toDigits 10 rawPid).length ≤ 9)
    (hfit : (joinWith (Nat.toDigits 10 rawPid) (segments T)).length ≤ 2048) :
    expandDoubleDollarChecked rawPid T = some (joinWith (Nat.toDigits 10 rawPid) (segments T)) ∧
    countDoubleDollar (joinWith (Nat.toDigits 10 rawPid) (segments T)) = 0 ∧
    joinWith needle (segments T) = T ∧
    (segments T).all (fun seg => countDoubleDollar seg == 0) = true ∧
    expandDoubleDollarChecked rawPid "$$$".toList = some (Nat.toDigits 10 rawPid ++ ['$']) := by
  have hpid' : (pidString rawPid).length ≤ 9 := hpid
  have hjoin : ∀ t, joinWith (pidString rawPid) (segments t) =
      replaceDoubleDollar (pidString rawPid) t := fun t => (joinWith_segments _ t).2
  have key : ∀ t, (replaceDoubleDollar (pidString rawPid) t).length ≤ 2048 →
      expandDoubleDollarChecked rawPid t = some (replaceDoubleDollar (pidString rawPid) t) := by
    intro t ht
    rw [expandChecked_of_fits rawPid t hpid' (by rw [expand_eq_replace]; exact ht),
      expand_eq_replace]
  have hfit' : (replaceDoubleDollar (pidString rawPid) T).length ≤ 2048 := by
    rw [← hjoin]; exact hfit
  refine ⟨?_, ?_, (joinWith_segments (pidString rawPid) T).1, ?_, ?_⟩
  · rw [key T hfit']
    exact congrArg some (hjoin T).symm
  · have := (replace_count (isPidText_pidString rawPid) T).1
    rw [← hjoin] at this
    exact this
  · rw [List.all_eq_true]
    intro seg hseg
    simpa using (segments_clean T).1 seg hseg
  · have h1 : replaceDoubleDollar (pidString rawPid) "$$$".toList = pidString rawPid ++ ['$'] := by
      simp [replaceDoubleDollar]
    rw [key _ (by rw [h1]; simp; omega), h1]
    rfl

/-- C7 (amended), at the token `a$$$b` and pid 4242. -/
theorem expandDoubleDollar_leaves_no_placeholder_witness :
    expandDoubleDollarChecked 4242 "a$$$b".toList =
      some (joinWith (Nat.toDigits 10 4242) (segments "a$$$b".toList)) ∧
    countDoubleDollar (joinWith (Nat.toDigits 10 4242) (segments "a$$$b".toList)) = 0 ∧
    joinWith needle (segments "a$$$b".toList) = "a$$$b".toList ∧
    (segments "a$$$b".toList).all (fun seg => countDoubleDollar seg == 0) = true ∧
    expandDoubleDollarChecked 4242 "$$$".toList = some (Nat.toDigits 10 4242 ++ ['$']) :=
  expandDoubleDollar_leaves_no_placeholder 4242 "a$$$b".toList (by decide) (by decide)

/-- C7 as stated fails on a long token: for the 1000 characters `$$...$` and pid
31337 the expansion would have 2500 characters, the writes pass the end of the
2049 bytes of `expanded`, and there is no result to hold or not hold a `$$`. -/
theorem expandDoubleDollar_no_result_when_overrun :
    (joinWith (Nat.toDigits 10 31337) (segments (List.replicate 1000 '$'))).length = 2500 ∧
    expandDoubleDollarChecked 31337 (List.replicate 1000 '$') = none := by
  have hl : (replaceDoubleDollar (pidString 31337) (List.replicate 1000 '$')).length = 2500 :=
    replace_dollars_length (pidString 31337) 500
  have hj : joinWith (pidString 31337) (segments (List.replicate 1000 '$')) =
      replaceDoubleDollar (pidString 31337) (List.replicate 1000 '$') :=
    (joinWith_segments _ _).2
  refine ⟨by rw [← hj] at hl; exact hl, ?_⟩
  rw [expandChecked_eq, expand_eq_replace, hl]
  simp

/-! ## Command parser: lemmas -/

theorem strtok_r_length {s delim t r : List Char}
    (h : strtok_r s delim = some (t, r)) : r.length < s.length := by
  unfold strtok_r at h
  split at h
  · cases h
  · rename_i c s' hd
    simp only [Option.some.injEq, Prod.mk.injEq] at h
    have h1 : (c :: s').length ≤ s.length := by
      rw [← hd]; exact (List.dropWhile_sublist _).length_le
    have h2 : (List.dropWhile (fun x => !isDelim delim x) (c :: s')).length ≤ (c :: s').length :=
      (List.dropWhile_sublist _).length_le
    rw [← h.2, List.length_drop]
    simp only [List.length_cons] at h1 h2
    omega

theorem strtok_r_nil (delim : List Char) : strtok_r [] delim = none := rfl

theorem tokensLoop_fuel :
    ∀ (f1 f2 : Nat) (s : List Char), s.length ≤ f1 → s.length ≤ f2 →
      tokensLoop f1 s = tokensLoop f2 s
  | 0, f2, s, h1, _ => by
    have : s = [] := List.length_eq_zero.mp (Nat.le_zero.mp h1)
    subst this
    cases f2 <;> simp [tokensLoop, strtok_r_nil]
  | f1 + 1, 0, s, _, h2 => by
    have : s = [] := List.length_eq_zero.mp (Nat.le_zero.mp h2)
    subst this
    simp [tokensLoop, strtok_r_nil]
  | f1 + 1, f2 + 1, s, h1, h2 => by
    cases hs : strtok_r s cmdDelim with
    | none => simp [tokensLoop, hs]
    | some tr =>
      obtain ⟨t, r⟩ := tr
      have hl := strtok_r_length hs
      simp only [tokensLoop, hs]
      rw [tokensLoop_fuel f1 f2 r (by omega) (by omega)]

theorem tokens_of_strtok_none {s : List Char} (h : strtok_r s cmdDelim = none) :
    tokens s = [] := by
  unfold tokens
  cases hl : s.length with
  | zero => rfl
  | succ n => simp [tokensLoop, h]

theorem tokens_of_strtok_some {s t r : List Char} (h : strtok_r s cmdDelim = some (t, r)) :
    tokens s = t :: tokens r := by
  have hl := strtok_r_length h
  unfold tokens
  cases hn : s.length with
  | zero => omega
  | succ n =>
    simp only [tokensLoop, h]
    rw [tokensLoop_fuel n r.length r (by omega) (le_refl _)]

theorem strtok_of_tokens_nil {s : List Char} (h : tokens s = []) :
    strtok_r s cmdDelim = none := by
  cases hs : strtok_r s cmdDelim with
  | none => rfl
  | some tr =>
    obtain ⟨t, r⟩ := tr
    rw [tokens_of_strtok_some hs] at h
    cases h

theorem strtok_of_tokens_cons {s t0 : List Char} {ts : List (List Char)}
    (h : tokens s = t0 :: ts) :
    ∃ r, strtok_r s cmdDelim = some (t0, r) ∧ tokens r = ts := by
  cases hs : strtok_r s cmdDelim with
  | none => rw [tokens_of_strtok_none hs] at h; cases h
  | some tr =>
    obtain ⟨t, r⟩ := tr
    rw [tokens_of_strtok_some hs] at h
    simp only [List.cons.injEq] at h
    exact ⟨r, by rw [h.1], h.2⟩

theorem writeSlot_length (args : List (Option (List Char))) (v : Option (List Char)) :
    writeSlot args args.length v = args ++ [v] := by
  induction args with
  | nil => rfl
  | cons a args ih => simp [writeSlot, ih]

theorem writeSlot_append (pre r : List (Option (List Char))) (j : Nat)
    (v : Option (List Char)) :
    writeSlot (pre ++ r) (pre.length + j) v = pre ++ writeSlot r j v := by
  induction pre with
  | nil => simp
  | cons a pre ih =>
    have : (a :: pre).length + j = (pre.length + j) + 1 := by simp; omega
    rw [this]
    simp [writeSlot, ih]

theorem writeSlot_int (pre r : List (Option (List Char))) (i : Int) (j : Nat)
    (v : Option (List Char)) (h : i = pre.length + j) :
    writeSlot (pre ++ r) i.toNat v = pre ++ writeSlot r j v := by
  have : i.toNat = pre.length + j := by omega
  rw [this, writeSlot_append]

theorem readSlot_int (pre r : List (Option (List Char))) (i : Int) (j : Nat)
    (h : i = pre.length + j) : readSlot (pre ++ r) i = r.getD j none := by
  have : i.toNat = pre.length + j := by omega
  unfold readSlot
  rw [this]
  simp [List.getD_eq_getElem?_getD, List.getElem?_append_right]

theorem parseArgsLoop_eq (rawPid : Nat) :
    ∀ (fuel : Nat) (s : List Char) (args : List (Option (List Char))), s.length ≤ fuel →
      parseArgsLoop rawPid fuel s args args.length =
        (args ++ (tokens s).map (fun t => some (expandDoubleDollar rawPid t)),
         args.length + (tokens s).length)
  | 0, s, args, h => by
    have : s = [] := List.length_eq_zero.mp (Nat.le_zero.mp h)
    subst this
    simp [parseArgsLoop, tokens, tokensLoop]
  | fuel + 1, s, args, h => by
    cases hs : strtok_r s cmdDelim with
    | none => simp [parseArgsLoop, hs, tokens_of_strtok_none hs]
    | some tr =>
      obtain ⟨t, r⟩ := tr
      have hl := strtok_r_length hs
      simp only [parseArgsLoop, hs]
      rw [writeSlot_length]
      have ih := parseArgsLoop_eq rawPid fuel r (args ++ [some (expandDoubleDollar rawPid t)])
        (by omega)
      simp only [List.length_append, List.length_singleton] at ih
      rw [ih, tokens_of_strtok_some hs]
      simp
      omega

theorem parseCmd_of_no_tokens (rawPid : Nat) (line : List Char) (info : cmdInfo)
    (gState : shellState) (h : tokens line = []) :
    parseCmd rawPid line info gState =
      ({ info with isIgnored := true, argsCount := 0 }, gState) := by
  unfold parseCmd
  rw [strtok_of_tokens_nil h]

theorem parseCmd_of_tokens (rawPid : Nat) (line : List Char) (gState : shellState)
    (t0 : List Char) (ts : List (List Char)) (h : tokens line = t0 :: ts) :
    parseCmd rawPid line cmdInfo.zero gState =
      if (expandDoubleDollar rawPid t0).head? = some '#' then
        ({ cmdInfo.zero with
            command := some (expandDoubleDollar rawPid t0),
            args := [some (expandDoubleDollar rawPid t0)],
            isIgnored := true, argsCount := 1 }, gState)
      else
        (finishParse (tokenInfo rawPid (t0 :: ts)),
         { gState with currentCmd := some (finishParse (tokenInfo rawPid (t0 :: ts))) }) := by
  obtain ⟨r, hs, hr⟩ := strtok_of_tokens_cons h
  unfold parseCmd
  simp only [hs]
  have hw : writeSlot cmdInfo.zero.args 0 (some (expandDoubleDollar rawPid t0)) =
      [some (expandDoubleDollar rawPid t0)] := rfl
  have hl := parseArgsLoop_eq rawPid r.length r [some (expandDoubleDollar rawPid t0)] (le_refl _)
  simp only [List.length_singleton] at hl
  simp only [hw, readSlot, Int.toNat_zero, List.getD_cons_zero, Option.getD_some, hl, hr]
  by_cases hc : (expandDoubleDollar rawPid t0).head? = some '#'
  · simp [hc, cmdInfo.zero]
  · simp only [hc, if_false]
    have : tokenInfo rawPid (t0 :: ts) =
        { cmdInfo.zero with
            args := [some (expandDoubleDollar rawPid t0)] ++
              ts.map (fun t => some (expandDoubleDollar rawPid t)),
            command := some (expandDoubleDollar rawPid t0),
            argsCount := ((1 + ts.length : Nat) : Int) } := by
      simp [tokenInfo, cmdInfo.zero]
      omega
    rw [this]
    rfl

theorem replace_eq_nil {pid : List Char} (hp : IsPidText pid) :
    ∀ s : List Char, replaceDoubleDollar pid s = [] → s = []
  | [], _ => rfl
  | [c], h => by simp [replaceDoubleDollar] at h
  | c :: d :: rest, h => by
    by_cases hcd : c = '$' ∧ d = '$'
    · simp only [replaceDoubleDollar, if_pos hcd] at h
      exact absurd (List.append_eq_nil.mp h).1 hp.1
    · simp [replaceDoubleDollar, hcd] at h

theorem replace_eq_singleton {pid : List Char} (hp : IsPidText pid) {c : Char}
    (hc : c.isDigit = false) (s : List Char) :
    replaceDoubleDollar pid s = [c] ↔ s = [c] := by
  constructor
  · intro h
    match s, h with
    | [], h => simp [replaceDoubleDollar] at h
    | [x], h => simpa [replaceDoubleDollar] using h
    | x :: y :: rest, h =>
      by_cases hxy : x = '$' ∧ y = '$'
      · simp only [replaceDoubleDollar, if_pos hxy] at h
        obtain ⟨a, r, hpid, ha⟩ := hp.head
        rw [hpid] at h
        simp only [List.cons_append, List.cons.injEq] at h
        rw [h.1, hc] at ha
        cases ha
      · simp only [replaceDoubleDollar, if_neg hxy, List.cons.injEq] at h
        have := replace_eq_nil hp _ h.2
        cases this
  · rintro rfl
    rfl

theorem replace_head_hash {pid : List Char} (hp : IsPidText pid) (s : List Char) :
    (replaceDoubleDollar pid s).head? = some '#' ↔ s.head? = some '#' := by
  match s with
  | [] => simp [replaceDoubleDollar]
  | [x] => simp [replaceDoubleDollar]
  | x :: y :: rest =>
    by_cases hxy : x = '$' ∧ y = '$'
    · simp only [replaceDoubleDollar, if_pos hxy]
      obtain ⟨a, r, hpid, ha⟩ := hp.head
      rw [hpid, hxy.1]
      simp only [List.cons_append, List.head?_cons, Option.some.injEq]
      constructor
      · intro h
        rw [h] at ha
        exact absurd ha (by decide)
      · intro h
        exact absurd h (by decide)
    · simp [replaceDoubleDollar, hxy]

theorem expand_eq_singleton (rawPid : Nat) {c : Char} (hc : c.isDigit = false)
    (t : List Char) : expandDoubleDollar rawPid t = [c] ↔ t = [c] := by
  rw [expand_eq_replace]
  exact replace_eq_singleton (isPidText_pidString rawPid) hc t

theorem expand_head_hash (rawPid : Nat) (t : List Char) :
    (expandDoubleDollar rawPid t).head? = some '#' ↔ t.head? = some '#' := by
  rw [expand_eq_replace]
  exact replace_head_hash (isPidText_pidString rawPid) t

theorem readSlot_tokens (rawPid : Nat) (toks : List (List Char)) (i : Int) :
    readSlot (toks.map (fun t => some (expandDoubleDollar rawPid t))) i =
      (toks[i.toNat]?).map (expandDoubleDollar rawPid) := by
  unfold readSlot
  rw [List.getD_eq_getElem?_getD, List.getElem?_map]
  cases toks[i.toNat]? <;> rfl

theorem strEq_tokens (rawPid : Nat) (toks : List (List Char)) (i : Int) {c : Char}
    (hc : c.isDigit = false) :
    strEq (readSlot (toks.map (fun t => some (expandDoubleDollar rawPid t))) i) [c] = true ↔
      toks[i.toNat]? = some [c] := by
  rw [readSlot_tokens]
  unfold strEq
  cases h : toks[i.toNat]? with
  | none => simp
  | some t => simp [expand_eq_singleton rawPid hc]

theorem parseBackground_plain (rawPid : Nat) (toks : List (List Char))
    (hlast : toks.getLast? ≠ some ['&']) :
    parseBackground (tokenInfo rawPid toks) toks.length =
      (tokenInfo rawPid toks, (toks.length : Int) - 2) := by
  unfold parseBackground
  have : ¬((tokenInfo rawPid toks).argsCount > 1 ∧
      strEq (readSlot (tokenInfo rawPid toks).args ((tokenInfo rawPid toks).argsCount - 1))
        ['&'] = true) := by
    rintro ⟨_, h⟩
    simp only [tokenInfo] at h
    rw [strEq_tokens rawPid toks _ (by decide)] at h
    apply hlast
    rw [List.getLast?_eq_getElem?, ← h]
    congr 1
    omega
  rw [if_neg this]

theorem parseRedirect_plain (rawPid : Nat) (toks : List (List Char))
    (h2 : 3 ≤ toks.length →
      toks[toks.length - 2]? ≠ some ['<'] ∧ toks[toks.length - 2]? ≠ some ['>']) :
    parseRedirect (tokenInfo rawPid toks) ((toks.length : Int) - 2) = tokenInfo rawPid toks := by
  unfold parseRedirect
  by_cases hidx : (toks.length : Int) - 2 > 0
  · have h3 : 3 ≤ toks.length := by omega
    have hnat : ((toks.length : Int) - 2).toNat = toks.length - 2 := by omega
    have hlt : ¬ strEq (readSlot (tokenInfo rawPid toks).args ((toks.length : Int) - 2)) ['<'] = true := by
      simp only [tokenInfo]
      rw [strEq_tokens rawPid toks _ (by decide), hnat]
      exact (h2 h3).1
    have hgt : ¬ strEq (readSlot (tokenInfo rawPid toks).args ((toks.length : Int) - 2)) ['>'] = true := by
      simp only [tokenInfo]
      rw [strEq_tokens rawPid toks _ (by decide), hnat]
      exact (h2 h3).2
    rw [if_pos hidx, if_neg hlt, if_neg hgt]
  · rw [if_neg hidx]

theorem argv_all_some (l : List (List Char)) (f : List Char → List Char)
    (rest : List (Option (List Char))) :
    ((l.map (fun t => some (f t)) ++ rest).takeWhile Option.isSome).filterMap id =
      l.map f ++ (rest.takeWhile Option.isSome).filterMap id := by
  induction l with
  | nil => simp
  | cons a l ih =>
    simp only [List.map_cons, List.cons_append]
    rw [List.takeWhile_cons_of_pos (by rfl)]
    simp only [List.filterMap_cons, id]
    rw [ih]

theorem strEq_some (a lit : List Char) : (strEq (some a) lit = true) = (a = lit) := by
  simp [strEq]

theorem strEq_none (lit : List Char) : (strEq none lit = true) = False := by
  simp [strEq]

theorem parseRedirect_in_then_out (info : cmdInfo) (pre : List (Option (List Char)))
    (x y : Option (List Char)) (idx : Int) (hidx : idx = pre.length + 2) (hpre : 0 < pre.length)
    (hargs : info.args = pre ++ [some ['<'], x, some ['>'], y]) :
    parseRedirect info idx =
      { info with args := pre ++ [none, none, none, none], argsCount := info.argsCount - 4,
                  inputRedirect := x, outputRedirect := y } := by
  obtain ⟨command, args, isIgnored, isBackground, argsCount, inputRedirect, outputRedirect⟩ := info
  simp only at hargs
  subst hargs
  have h0 : idx > 0 := by omega
  have h2 : idx - 2 > 0 := by omega
  simp only [parseRedirect, removeArgument, if_pos h0,
    readSlot_int pre _ idx 2 hidx, readSlot_int pre _ (idx + 1) 3 (by omega),
    readSlot_int pre _ (idx - 2) 0 (by omega), readSlot_int pre _ (idx - 1) 1 (by omega),
    writeSlot_int pre _ idx 2 _ hidx, writeSlot_int pre _ (idx + 1) 3 _ (by omega),
    writeSlot_int pre _ (idx - 2) 0 _ (by omega), writeSlot_int pre _ (idx - 1) 1 _ (by omega),
    writeSlot, List.getD_cons_succ, List.getD_cons_zero, strEq_some, h2, true_and]
  simp
  omega

theorem parseRedirect_out_then_in (info : cmdInfo) (pre : List (Option (List Char)))
    (x y : Option (List Char)) (idx : Int) (hidx : idx = pre.length + 2) (hpre : 0 < pre.length)
    (hargs : info.args = pre ++ [some ['>'], y, some ['<'], x]) :
    parseRedirect info idx =
      { info with args := pre ++ [none, none, none, none], argsCount := info.argsCount - 4,
                  inputRedirect := x, outputRedirect := y } := by
  obtain ⟨command, args, isIgnored, isBackground, argsCount, inputRedirect, outputRedirect⟩ := info
  simp only at hargs
  subst hargs
  have h0 : idx > 0 := by omega
  have h2 : idx - 2 > 0 := by omega
  simp only [parseRedirect, removeArgument, if_pos h0,
    readSlot_int pre _ idx 2 hidx, readSlot_int pre _ (idx + 1) 3 (by omega),
    readSlot_int pre _ (idx - 2) 0 (by omega), readSlot_int pre _ (idx - 1) 1 (by omega),
    writeSlot_int pre _ idx 2 _ hidx, writeSlot_int pre _ (idx + 1) 3 _ (by omega),
    writeSlot_int pre _ (idx - 2) 0 _ (by omega), writeSlot_int pre _ (idx - 1) 1 _ (by omega),
    writeSlot, List.getD_cons_succ, List.getD_cons_zero, strEq_some, h2, true_and]
  simp
  omega

theorem expand_lt (rawPid : Nat) : expandDoubleDollar rawPid ['<'] = ['<'] :=
  (expand_eq_singleton rawPid (by decide) ['<']).mpr rfl

theorem expand_gt (rawPid : Nat) : expandDoubleDollar rawPid ['>'] = ['>'] :=
  (expand_eq_singleton rawPid (by decide) ['>']).mpr rfl

theorem expand_amp (rawPid : Nat) : expandDoubleDollar rawPid ['&'] = ['&'] :=
  (expand_eq_singleton rawPid (by decide) ['&']).mpr rfl

theorem finishParse_both (rawPid : Nat) (cmd : List Char) (rest four : List (List Char))
    (x y : List Char)
    (hfour : four = [['<'], x, ['>'], y] ∨ four = [['>'], y, ['<'], x])
    (hfinal : (cmd :: rest ++ four).getLast? ≠ some ['&']) :
    finishParse (tokenInfo rawPid (cmd :: rest ++ four)) =
      { command := some (expandDoubleDollar rawPid cmd),
        args := (cmd :: rest).map (fun t => some (expandDoubleDollar rawPid t)) ++
          [none, none, none, none],
        isIgnored := false, isBackground := false,
        argsCount := rest.length + 1,
        inputRedirect := some (expandDoubleDollar rawPid x),
        outputRedirect := some (expandDoubleDollar rawPid y) } := by
  unfold finishParse
  have ha : (tokenInfo rawPid (cmd :: rest ++ four)).argsCount =
      ((cmd :: rest ++ four).length : Int) := rfl
  rw [ha, parseBackground_plain rawPid _ hfinal]
  have hlen : four.length = 4 := by rcases hfour with h | h <;> rw [h] <;> rfl
  have hidx : (((cmd :: rest ++ four).length : Nat) : Int) - 2 =
      (((cmd :: rest).map (fun t => some (expandDoubleDollar rawPid t))).length : Nat) + 2 := by
    simp only [List.length_cons, List.length_append, List.length_map, hlen]
    omega
  rcases hfour with h | h
  · rw [parseRedirect_in_then_out _ ((cmd :: rest).map (fun t => some (expandDoubleDollar rawPid t)))
      (some (expandDoubleDollar rawPid x)) (some (expandDoubleDollar rawPid y)) _ hidx
      (by simp) (by simp [tokenInfo, h, expand_lt, expand_gt])]
    simp [tokenInfo, h]
    omega
  · rw [parseRedirect_out_then_in _ ((cmd :: rest).map (fun t => some (expandDoubleDollar rawPid t)))
      (some (expandDoubleDollar rawPid x)) (some (expandDoubleDollar rawPid y)) _ hidx
      (by simp) (by simp [tokenInfo, h, expand_lt, expand_gt])]
    simp [tokenInfo, h]
    omega

theorem finishParse_background (rawPid : Nat) (t0 : List Char) (ts : List (List Char))
    (hops : ∀ t ∈ t0 :: ts, t ≠ ['<'] ∧ t ≠ ['>']) :
    finishParse (tokenInfo rawPid (t0 :: ts ++ [['&']])) =
      { command := some (expandDoubleDollar rawPid t0),
        args := (t0 :: ts).map (fun t => some (expandDoubleDollar rawPid t)) ++ [none],
        isIgnored := false, isBackground := true,
        argsCount := ts.length + 1,
        inputRedirect := none, outputRedirect := none } := by
  have hargs : (tokenInfo rawPid (t0 :: ts ++ [['&']])).args =
      (t0 :: ts).map (fun t => some (expandDoubleDollar rawPid t)) ++ [some ['&']] := by
    simp [tokenInfo, expand_amp]
  have hcount : (tokenInfo rawPid (t0 :: ts ++ [['&']])).argsCount = (ts.length : Int) + 2 := by
    simp [tokenInfo]
    omega
  have hlenM : ((t0 :: ts).map (fun t => some (expandDoubleDollar rawPid t))).length =
      ts.length + 1 := by simp
  have hback : parseBackground (tokenInfo rawPid (t0 :: ts ++ [['&']]))
      (tokenInfo rawPid (t0 :: ts ++ [['&']])).argsCount =
      ({ command := some (expandDoubleDollar rawPid t0),
         args := (t0 :: ts).map (fun t => some (expandDoubleDollar rawPid t)) ++ [none],
         isIgnored := false, isBackground := true,
         argsCount := ts.length + 1,
         inputRedirect := none, outputRedirect := none }, (ts.length : Int)) := by
    unfold parseBackground
    have hread : readSlot (tokenInfo rawPid (t0 :: ts ++ [['&']])).args
        ((tokenInfo rawPid (t0 :: ts ++ [['&']])).argsCount - 1) = some ['&'] := by
      rw [hargs, readSlot_int _ _ _ 0 (by rw [hcount, hlenM]; push_cast; omega)]
      rfl
    rw [if_pos ⟨by rw [hcount]; omega, by rw [hread]; rfl⟩]
    simp only [removeArgument, hargs]
    rw [writeSlot_int _ _ _ 0 _ (by rw [hcount, hlenM]; push_cast; omega)]
    simp only [writeSlot, hcount]
    simp [tokenInfo]
    omega
  unfold finishParse
  rw [hback]
  unfold parseRedirect
  by_cases hidx : (ts.length : Int) > 0
  · have hk : ((ts.length : Int)).toNat < (t0 :: ts).length := by
      simp only [List.length_cons]; omega
    obtain ⟨t, ht⟩ : ∃ t, (t0 :: ts)[((ts.length : Int)).toNat]? = some t :=
      ⟨_, List.getElem?_eq_getElem hk⟩
    have hmem : t ∈ t0 :: ts := List.getElem?_mem ht
    have hread : readSlot ((t0 :: ts).map (fun t => some (expandDoubleDollar rawPid t)) ++ [none])
        (ts.length : Int) = some (expandDoubleDollar rawPid t) := by
      unfold readSlot
      rw [List.getD_eq_getElem?_getD, List.getElem?_append_left (by rw [hlenM]; omega),
        List.getElem?_map, ht]
      rfl
    have hlt : ¬ strEq (some (expandDoubleDollar rawPid t)) ['<'] = true := by
      rw [strEq_some, expand_eq_singleton rawPid (by decide)]
      exact (hops t hmem).1
    have hgt : ¬ strEq (some (expandDoubleDollar rawPid t)) ['>'] = true := by
      rw [strEq_some, expand_eq_singleton rawPid (by decide)]
      exact (hops t hmem).2
    simp only [hread, if_pos hidx, if_neg hlt, if_neg hgt]
  · rw [if_neg hidx]

theorem dropWhile_delim_eq_nil (line : List Char) :
    line.dropWhile (isDelim cmdDelim) = [] ↔ ∀ c ∈ line, c = ' ' := by
  rw [List.dropWhile_eq_nil_iff]
  simp [isDelim, cmdDelim]

theorem tokens_eq_nil_iff (line : List Char) : tokens line = [] ↔ ∀ c ∈ line, c = ' ' := by
  rw [← dropWhile_delim_eq_nil]
  constructor
  · intro h
    have hs := strtok_of_tokens_nil h
    unfold strtok_r at hs
    split at hs
    · assumption
    · cases hs
  · intro h
    apply tokens_of_strtok_none
    unfold strtok_r
    rw [h]

theorem parseArgsLoopChecked_eq (rawPid : Nat) (hpid : (pidString rawPid).length ≤ 9) :
    ∀ (fuel : Nat) (s : List Char) (args : List (Option (List Char))), s.length ≤ fuel →
      (∀ t ∈ tokens s, (expandDoubleDollar rawPid t).length ≤ 2048) →
      args.length ≤ argsSlots →
      parseArgsLoopChecked rawPid fuel s args args.length =
        if args.length + (tokens s).length ≤ argsSlots then
          some (parseArgsLoop rawPid fuel s args args.length)
        else none
  | 0, s, args, h, _, hn => by
    have : s = [] := List.length_eq_zero.mp (Nat.le_zero.mp h)
    subst this
    simp [parseArgsLoopChecked, parseArgsLoop, tokens, tokensLoop, hn]
  | fuel + 1, s, args, h, hfit, hn => by
    cases hs : strtok_r s cmdDelim with
    | none =>
      simp [parseArgsLoopChecked, parseArgsLoop, hs, tokens_of_strtok_none hs, hn]
    | some tr =>
      obtain ⟨t, r⟩ := tr
      have hl := strtok_r_length hs
      have htok := tokens_of_strtok_some hs
      have ht : (expandDoubleDollar rawPid t).length ≤ 2048 :=
        hfit t (by rw [htok]; exact List.mem_cons_self _ _)
      have hr : ∀ u ∈ tokens r, (expandDoubleDollar rawPid u).length ≤ 2048 :=
        fun u hu => hfit u (by rw [htok]; exact List.mem_cons_of_mem _ hu)
      simp only [parseArgsLoopChecked, parseArgsLoop, hs, expandChecked_of_fits rawPid t hpid ht]
      rw [writeSlot_length, htok]
      by_cases hlt : args.length < argsSlots
      · have ih := parseArgsLoopChecked_eq rawPid hpid fuel r
          (args ++ [some (expandDoubleDollar rawPid t)]) (by omega) hr
          (by simp only [List.length_append, List.length_singleton]; omega)
        simp only [List.length_append, List.length_singleton] at ih
        rw [if_pos hlt, ih]
        simp only [List.length_cons]
        by_cases hc : args.length + 1 + (tokens r).length ≤ argsSlots
        · rw [if_pos hc, if_pos (by omega)]
        · rw [if_neg hc, if_neg (by omega)]
      · rw [if_neg hlt, if_neg (by simp only [List.length_cons]; omega)]

theorem parseCmdChecked_of_no_tokens (rawPid : Nat) (line : List Char) (info : cmdInfo)
    (gState : shellState) (h : tokens line = []) :
    parseCmdChecked rawPid line info gState = some (parseCmd rawPid line info gState) := by
  unfold parseCmdChecked parseCmd
  rw [strtok_of_tokens_nil h]

theorem parseCmdChecked_of_comment (rawPid : Nat) (line : List Char) (gState : shellState)
    (t0 : List Char) (ts : List (List Char)) (h : tokens line = t0 :: ts)
    (hpid : (pidString rawPid).length ≤ 9)
    (hfit : (expandDoubleDollar rawPid t0).length ≤ 2048)
    (hc : (expandDoubleDollar rawPid t0).head? = some '#') :
    parseCmdChecked rawPid line cmdInfo.zero gState =
      some (parseCmd rawPid line cmdInfo.zero gState) := by
  obtain ⟨r, hs, _⟩ := strtok_of_tokens_cons h
  have hw : writeSlot cmdInfo.zero.args 0 (some (expandDoubleDollar rawPid t0)) =
      [some (expandDoubleDollar rawPid t0)] := rfl
  unfold parseCmdChecked parseCmd
  simp only [hs, expandChecked_of_fits rawPid t0 hpid hfit, hw, readSlot, Int.toNat_zero,
    List.getD_cons_zero, Option.getD_some, hc, if_true]

theorem parseCmdChecked_of_tokens (rawPid : Nat) (line : List Char) (gState : shellState)
    (t0 : List Char) (ts : List (List Char)) (h : tokens line = t0 :: ts)
    (hpid : (pidString rawPid).length ≤ 9)
    (hfit : ∀ t ∈ t0 :: ts, (expandDoubleDollar rawPid t).length ≤ 2048)
    (hc : ¬ (expandDoubleDollar rawPid t0).head? = some '#') :
    parseCmdChecked rawPid line cmdInfo.zero gState =
      if ts.length + 1 ≤ argsSlots then some (parseCmd rawPid line cmdInfo.zero gState)
      else none := by
  obtain ⟨r, hs, hr⟩ := strtok_of_tokens_cons h
  have hw : writeSlot cmdInfo.zero.args 0 (some (expandDoubleDollar rawPid t0)) =
      [some (expandDoubleDollar rawPid t0)] := rfl
  have hloop := parseArgsLoopChecked_eq rawPid hpid r.length r
    [some (expandDoubleDollar rawPid t0)] (le_refl _)
    (fun t ht => hfit t (by rw [← hr] at *; exact List.mem_cons_of_mem _ ht))
    (by simp [argsSlots])
  simp only [List.length_singleton, hr] at hloop
  unfold parseCmdChecked parseCmd
  simp only [hs, expandChecked_of_fits rawPid t0 hpid (hfit t0 (List.mem_cons_self _ _)), hw,
    readSlot, Int.toNat_zero, List.getD_cons_zero, Option.getD_some, hc, if_false, hloop]
  by_cases hn : ts.length + 1 ≤ argsSlots
  · rw [if_pos (by omega), if_pos hn]
  · rw [if_neg (by omega), if_neg hn]

theorem parseCmdChecked_in_bounds (rawPid : Nat) (line : List Char) (gState : shellState)
    (hpid : (pidString rawPid).length ≤ 9)
    (hfit : ∀ t ∈ tokens line, (expandDoubleDollar rawPid t).length ≤ 2048)
    (hcount : (tokens line).length ≤ 512) :
    parseCmdChecked rawPid line cmdInfo.zero gState =
      some (parseCmd rawPid line cmdInfo.zero gState) := by
  cases h : tokens line with
  | nil => exact parseCmdChecked_of_no_tokens rawPid line _ gState h
  | cons t0 ts =>
    rw [h] at hfit hcount
    by_cases hc : (expandDoubleDollar rawPid t0).head? = some '#'
    · exact parseCmdChecked_of_comment rawPid line gState t0 ts h hpid
        (hfit t0 (List.mem_cons_self _ _)) hc
    · rw [parseCmdChecked_of_tokens rawPid line gState t0 ts h hpid hfit hc,
        if_pos (by simp only [List.length_cons, argsSlots] at *; omega)]

theorem tokens_manyTokens : ∀ n : Nat, tokens (manyTokens n) = List.replicate n ['a']
  | 0 => rfl
  | n + 1 => by
    have h : manyTokens (n + 1) = 'a' :: ' ' :: manyTokens n := by
      simp [manyTokens, List.replicate_succ]
    have hs : strtok_r ('a' :: ' ' :: manyTokens n) cmdDelim = some (['a'], manyTokens n) := by
      simp [strtok_r, isDelim, cmdDelim]
    rw [h, tokens_of_strtok_some hs, tokens_manyTokens n, List.replicate_succ]

theorem expand_plain_a (rawPid : Nat) : expandDoubleDollar rawPid ['a'] = ['a'] := by
  rw [expand_eq_replace]; rfl

theorem tokens_manyTokens_append (rest : List Char) :
    ∀ n : Nat, tokens (manyTokens n ++ rest) = List.replicate n ['a'] ++ tokens rest
  | 0 => rfl
  | n + 1 => by
    have h : manyTokens (n + 1) ++ rest = 'a' :: ' ' :: (manyTokens n ++ rest) := by
      simp [manyTokens, List.replicate_succ]
    have hs : strtok_r ('a' :: ' ' :: (manyTokens n ++ rest)) cmdDelim =
        some (['a'], manyTokens n ++ rest) := by
      simp [strtok_r, isDelim, cmdDelim]
    rw [h, tokens_of_strtok_some hs, tokens_manyTokens_append rest n, List.replicate_succ]
    rfl

theorem parseCmdChecked_first_overrun (rawPid : Nat) (line : List Char) (info : cmdInfo)
    (gState : shellState) (t r : List Char) (hs : strtok_r line cmdDelim = some (t, r))
    (he : expandDoubleDollarChecked rawPid t = none) :
    parseCmdChecked rawPid line info gState = none := by
  unfold parseCmdChecked
  simp only [hs, he]

theorem fits_of_mem_replicate (rawPid n : Nat) (extra : List (List Char))
    (hextra : ∀ t ∈ extra, (expandDoubleDollar rawPid t).length ≤ 2048) :
    ∀ t ∈ ['a'] :: (List.replicate n ['a'] ++ extra),
      (expandDoubleDollar rawPid t).length ≤ 2048 := by
  intro t ht
  have ha : (expandDoubleDollar rawPid ['a']).length ≤ 2048 := by
    rw [expand_plain_a]; decide
  rcases List.mem_cons.mp ht with h | h
  · rw [h]; exact ha
  · rcases List.mem_append.mp h with h | h
    · rw [(List.mem_replicate.mp h).2]; exact ha
    · exact hextra t h

theorem parseCmdChecked_many (rawPid n : Nat) (tail : List Char) (gState : shellState)
    (hpid : (pidString rawPid).length ≤ 9)
    (hextra : ∀ t ∈ tokens tail, (expandDoubleDollar rawPid t).length ≤ 2048)
    (hmany : argsSlots < n + 1 + (tokens tail).length) :
    parseCmdChecked rawPid (manyTokens (n + 1) ++ tail) cmdInfo.zero gState = none := by
  have htok : tokens (manyTokens (n + 1) ++ tail) =
      ['a'] :: (List.replicate n ['a'] ++ tokens tail) := by
    rw [tokens_manyTokens_append, List.replicate_succ]
    rfl
  have hc : ¬ (expandDoubleDollar rawPid ['a']).head? = some '#' := by
    rw [expand_plain_a]; decide
  rw [parseCmdChecked_of_tokens rawPid _ gState ['a'] (List.replicate n ['a'] ++ tokens tail)
    htok hpid (fits_of_mem_replicate rawPid n _ hextra) hc]
  rw [if_neg (by
    simp only [List.length_append, List.length_replicate]
    omega)]

/-! ## Command parser: theorems -/

/-- What `parseCmd` computes, while it stays inside its storage, on a line with
both redirections. -/
theorem parseCmd_both_redirections_inner (rawPid : Nat) (line : List Char) (gState : shellState)
    (cmd : List Char) (rest : List (List Char)) (fileIn fileOut : List Char)
    (htok : tokens line = cmd :: rest ++ [['<'], fileIn, ['>'], fileOut] ∨
      tokens line = cmd :: rest ++ [['>'], fileOut, ['<'], fileIn])
    (hcomment : cmd.head? ≠ some '#')
    (hfinal : (tokens line).getLast? ≠ some ['&']) :
    (parseCmd rawPid line cmdInfo.zero gState).1 =
      { command := some (expandDoubleDollar rawPid cmd),
        args := (cmd :: rest).map (fun t => some (expandDoubleDollar rawPid t)) ++
          [none, none, none, none],
        isIgnored := false, isBackground := false,
        argsCount := rest.length + 1,
        inputRedirect := some (expandDoubleDollar rawPid fileIn),
        outputRedirect := some (expandDoubleDollar rawPid fileOut) } ∧
    argv (parseCmd rawPid line cmdInfo.zero gState).1 =
      (cmd :: rest).map (expandDoubleDollar rawPid) := by
  have hc : ¬ (expandDoubleDollar rawPid cmd).head? = some '#' := by
    rw [expand_head_hash]; exact hcomment
  have key : ∀ four : List (List Char), tokens line = cmd :: rest ++ four →
      (four = [['<'], fileIn, ['>'], fileOut] ∨ four = [['>'], fileOut, ['<'], fileIn]) →
      (parseCmd rawPid line cmdInfo.zero gState).1 =
        { command := some (expandDoubleDollar rawPid cmd),
          args := (cmd :: rest).map (fun t => some (expandDoubleDollar rawPid t)) ++
            [none, none, none, none],
          isIgnored := false, isBackground := false,
          argsCount := rest.length + 1,
          inputRedirect := some (expandDoubleDollar rawPid fileIn),
          outputRedirect := some (expandDoubleDollar rawPid fileOut) } := by
    intro four h4 hfour
    have hfinal' : (cmd :: rest ++ four).getLast? ≠ some ['&'] := by
      have := hfinal
      rw [h4] at this
      exact this
    rw [parseCmd_of_tokens rawPid line gState cmd (rest ++ four) h4, if_neg hc]
    exact finishParse_both rawPid cmd rest four fileIn fileOut hfour hfinal'
  have hmain := htok.elim (fun h => key _ h (Or.inl rfl)) (fun h => key _ h (Or.inr rfl))
  refine ⟨hmain, ?_⟩
  rw [hmain]
  have := argv_all_some (cmd :: rest) (expandDoubleDollar rawPid) [none, none, none, none]
  simpa [argv] using this

/-- C1 (amended). For every line whose tokens are `cmd a1 ... ak < IN > OUT` or
`cmd a1 ... ak > OUT < IN` (`k >= 0`, `cmd` not beginning with `#`, final token
not `&`), with at most 512 tokens, a pid of at most 9 digits and every token
expanding to at most 2048 characters, `parseCmd` stays inside its storage and
yields `inputRedirect = expand(IN)`, `outputRedirect = expand(OUT)`,
`isBackground = false`, and arguments exactly
`[expand(cmd), expand(a1), ..., expand(ak)]` with `argsCount = k + 1`, the four
slots of the redirections being `NULL`. -/
theorem parseCmd_both_redirections (rawPid : Nat) (line : List Char) (gState : shellState)
    (cmd : List Char) (rest : List (List Char)) (fileIn fileOut : List Char)
    (htok : tokens line = cmd :: rest ++ [['<'], fileIn, ['>'], fileOut] ∨
      tokens line = cmd :: rest ++ [['>'], fileOut, ['<'], fileIn])
    (hcomment : cmd.head? ≠ some '#')
    (hfinal : (tokens line).getLast? ≠ some ['&'])
    (hpid : (Nat.toDigits 10 rawPid).length ≤ 9)
    (hfit : ∀ t ∈ tokens line, (expandDoubleDollar rawPid t).length ≤ 2048)
    (hcount : (tokens line).length ≤ 512) :
    parseCmdChecked rawPid line cmdInfo.zero gState =
      some (parseCmd rawPid line cmdInfo.zero gState) ∧
    (parseCmd rawPid line cmdInfo.zero gState).1 =
      { command := some (expandDoubleDollar rawPid cmd),
        args := (cmd :: rest).map (fun t => some (expandDoubleDollar rawPid t)) ++
          [none, none, none, none],
        isIgnored := false, isBackground := false,
        argsCount := rest.length + 1,
        inputRedirect := some (expandDoubleDollar rawPid fileIn),
        outputRedirect := some (expandDoubleDollar rawPid fileOut) } ∧
    argv (parseCmd rawPid line cmdInfo.zero gState).1 =
      (cmd :: rest).map (expandDoubleDollar rawPid) :=
  ⟨parseCmdChecked_in_bounds rawPid line gState hpid hfit hcount,
   parseCmd_both_redirections_inner rawPid line gState cmd rest fileIn fileOut htok hcomment
    hfinal⟩

/-- C1 (amended), at the line `cmd < in.txt > out.txt`. -/
theorem parseCmd_both_redirections_witness :
    parseCmdChecked 4242 "cmd < in.txt > out.txt".toList cmdInfo.zero getNewShellState =
      some (parseCmd 4242 "cmd < in.txt > out.txt".toList cmdInfo.zero getNewShellState) ∧
    (parseCmd 4242 "cmd < in.txt > out.txt".toList cmdInfo.zero getNewShellState).1 =
      { command := some "cmd".toList,
        args := [some "cmd".toList, none, none, none, none],
        isIgnored := false, isBackground := false, argsCount := 1,
        inputRedirect := some "in.txt".toList,
        outputRedirect := some "out.txt".toList } ∧
    argv (parseCmd 4242 "cmd < in.txt > out.txt".toList cmdInfo.zero getNewShellState).1 =
      ["cmd".toList] :=
  parseCmd_both_redirections 4242 "cmd < in.txt > out.txt".toList getNewShellState
    "cmd".toList [] "in.txt".toList "out.txt".toList (Or.inl (by decide)) (by decide) (by decide)
    (by decide) (by decide) (by decide)

/-- C1 as stated fails twice. On a token that holds `$$`: the line
`c$$ < $$ > out.txt` has the form of the claim, yet in the shell with pid 77 the
argument is `c77`, not the token `c$$`, and the input redirection is `77`, not
the token `$$`. On a long line: with 510 tokens `a` before `< in.txt > out.txt`
the store of the 514th argument passes the end of `args[513]` and `parseCmd` has
no defined result. -/
theorem parseCmd_both_redirections_as_stated_fails :
    (tokens "c$$ < $$ > out.txt".toList =
        "c$$".toList :: [] ++ [['<'], "$$".toList, ['>'], "out.txt".toList] ∧
      argv (parseCmd 77 "c$$ < $$ > out.txt".toList cmdInfo.zero getNewShellState).1 =
        ["c77".toList] ∧
      argv (parseCmd 77 "c$$ < $$ > out.txt".toList cmdInfo.zero getNewShellState).1 ≠
        ["c$$".toList] ∧
      (parseCmd 77 "c$$ < $$ > out.txt".toList cmdInfo.zero getNewShellState).1.inputRedirect =
        some "77".toList ∧
      (parseCmd 77 "c$$ < $$ > out.txt".toList cmdInfo.zero getNewShellState).1.inputRedirect ≠
        some "$$".toList) ∧
    tokens (manyTokens 510 ++ "< in.txt > out.txt".toList) =
      List.replicate 510 ['a'] ++ [['<'], "in.txt".toList, ['>'], "out.txt".toList] ∧
    parseCmdChecked 4242 (manyTokens 510 ++ "< in.txt > out.txt".toList) cmdInfo.zero
      getNewShellState = none := by
  have ht : tokens "< in.txt > out.txt".toList =
      [['<'], "in.txt".toList, ['>'], "out.txt".toList] := by decide
  refine ⟨by decide, by rw [tokens_manyTokens_append, ht], ?_⟩
  exact parseCmdChecked_many 4242 509 _ getNewShellState (by decide)
    (by rw [ht]; decide) (by rw [ht]; decide)

/-- C2, evaluated at the line `cmd a1 > out.txt &`: the command is marked
background, but no output redirection is recorded and both `>` and `out.txt`
stay in the arguments handed to `execvp`. -/
theorem parseCmd_background_redirect_missed :
    (parseCmd 4242 "cmd a1 > out.txt &".toList cmdInfo.zero getNewShellState).1 =
      { command := some "cmd".toList,
        args := [some "cmd".toList, some "a1".toList, some ">".toList,
          some "out.txt".toList, none],
        isIgnored := false, isBackground := true, argsCount := 4,
        inputRedirect := none, outputRedirect := none } ∧
    argv (parseCmd 4242 "cmd a1 > out.txt &".toList cmdInfo.zero getNewShellState).1 =
      ["cmd".toList, "a1".toList, ">".toList, "out.txt".toList] := by
  decide


/-- What `parseCmd` computes, while it stays inside its storage, on a line that
ends in `&`. -/
theorem parseCmd_background_marker_inner (rawPid : Nat) (gState : shellState) :
    (∀ (line t0 : List Char) (ts : List (List Char)),
      tokens line = t0 :: ts ++ [['&']] →
      t0.head? ≠ some '#' →
      (∀ t ∈ t0 :: ts, t ≠ ['<'] ∧ t ≠ ['>']) →
      (parseCmd rawPid line cmdInfo.zero gState).1 =
        { command := some (expandDoubleDollar rawPid t0),
          args := (t0 :: ts).map (fun t => some (expandDoubleDollar rawPid t)) ++ [none],
          isIgnored := false, isBackground := true,
          argsCount := ts.length + 1,
          inputRedirect := none, outputRedirect := none } ∧
      argv (parseCmd rawPid line cmdInfo.zero gState).1 =
        (t0 :: ts).map (expandDoubleDollar rawPid)) ∧
    (∀ line : List Char, tokens line = [['&']] →
      (parseCmd rawPid line cmdInfo.zero gState).1 =
        { command := some ['&'], args := [some ['&']],
          isIgnored := false, isBackground := false, argsCount := 1,
          inputRedirect := none, outputRedirect := none }) := by
  constructor
  · intro line t0 ts htok hcomment hops
    have hc : ¬ (expandDoubleDollar rawPid t0).head? = some '#' := by
      rw [expand_head_hash]; exact hcomment
    have hmain : (parseCmd rawPid line cmdInfo.zero gState).1 =
        finishParse (tokenInfo rawPid (t0 :: ts ++ [['&']])) := by
      rw [parseCmd_of_tokens rawPid line gState t0 (ts ++ [['&']]) htok, if_neg hc]
      rfl
    rw [finishParse_background rawPid t0 ts hops] at hmain
    refine ⟨hmain, ?_⟩
    rw [hmain]
    have := argv_all_some (t0 :: ts) (expandDoubleDollar rawPid) [none]
    simpa [argv] using this
  · intro line htok
    have hc : ¬ (expandDoubleDollar rawPid ['&']).head? = some '#' := by
      rw [expand_amp]; decide
    rw [parseCmd_of_tokens rawPid line gState ['&'] [] htok, if_neg hc]
    have hinfo : tokenInfo rawPid [['&']] =
        { command := some ['&'], args := [some ['&']],
          isIgnored := false, isBackground := false, argsCount := 1,
          inputRedirect := none, outputRedirect := none } := by
      simp [tokenInfo, expand_amp]
    rw [hinfo]
    have hfin : finishParse
        { command := some ['&'], args := [some ['&']],
          isIgnored := false, isBackground := false, argsCount := 1,
          inputRedirect := none, outputRedirect := none } =
        { command := some ['&'], args := [some ['&']],
          isIgnored := false, isBackground := false, argsCount := 1,
          inputRedirect := none, outputRedirect := none } := by decide
    exact hfin

/-- C3 (amended). For a pid of at most 9 digits and every line whose tokens are
`t0 ... tk` followed by a final standalone `&` (`k >= 0`, `t0` not beginning
with `#`, no `ti` equal to `<` or `>`), with at most 512 tokens and every token
expanding to at most 2048 characters, `parseCmd` stays inside its storage, sets
`isBackground = true`, sets no redirection, and leaves arguments exactly
`[expand(t0), ..., expand(tk)]`, the slot of the marker being `NULL`; a line
whose only token is `&` is not marked background and keeps `&` as its
command. -/
theorem parseCmd_background_marker (rawPid : Nat) (gState : shellState)
    (hpid : (Nat.toDigits 10 rawPid).length ≤ 9) :
    (∀ (line t0 : List Char) (ts : List (List Char)),
      tokens line = t0 :: ts ++ [['&']] →
      t0.head? ≠ some '#' →
      (∀ t ∈ t0 :: ts, t ≠ ['<'] ∧ t ≠ ['>']) →
      (∀ t ∈ t0 :: ts, (expandDoubleDollar rawPid t).length ≤ 2048) →
      ts.length + 2 ≤ 512 →
      parseCmdChecked rawPid line cmdInfo.zero gState =
        some (parseCmd rawPid line cmdInfo.zero gState) ∧
      (parseCmd rawPid line cmdInfo.zero gState).1 =
        { command := some (expandDoubleDollar rawPid t0),
          args := (t0 :: ts).map (fun t => some (expandDoubleDollar rawPid t)) ++ [none],
          isIgnored := false, isBackground := true,
          argsCount := ts.length + 1,
          inputRedirect := none, outputRedirect := none } ∧
      argv (parseCmd rawPid line cmdInfo.zero gState).1 =
        (t0 :: ts).map (expandDoubleDollar rawPid)) ∧
    (∀ line : List Char, tokens line = [['&']] →
      parseCmdChecked rawPid line cmdInfo.zero gState =
        some (parseCmd rawPid line cmdInfo.zero gState) ∧
      (parseCmd rawPid line cmdInfo.zero gState).1 =
        { command := some ['&'], args := [some ['&']],
          isIgnored := false, isBackground := false, argsCount := 1,
          inputRedirect := none, outputRedirect := none }) := by
  have hamp : (expandDoubleDollar rawPid ['&']).length ≤ 2048 := by
    rw [expand_amp]; decide
  constructor
  · intro line t0 ts htok hcomment hops hfit hcount
    have hall : ∀ t ∈ tokens line, (expandDoubleDollar rawPid t).length ≤ 2048 := by
      intro t ht
      rw [htok] at ht
      rcases List.mem_cons.mp ht with h | h
      · rw [h]; exact hfit t0 (List.mem_cons_self _ _)
      · rcases List.mem_append.mp h with h | h
        · exact hfit t (List.mem_cons_of_mem _ h)
        · rw [List.mem_singleton.mp h]; exact hamp
    have hlen : (tokens line).length ≤ 512 := by
      rw [htok]
      simp only [List.length_cons, List.length_append, List.length_singleton, List.length_nil]
      omega
    exact ⟨parseCmdChecked_in_bounds rawPid line gState hpid hall hlen,
      (parseCmd_background_marker_inner rawPid gState).1 line t0 ts htok hcomment hops⟩
  · intro line htok
    have hall : ∀ t ∈ tokens line, (expandDoubleDollar rawPid t).length ≤ 2048 := by
      intro t ht
      rw [htok] at ht
      rw [List.mem_singleton.mp ht]; exact hamp
    exact ⟨parseCmdChecked_in_bounds rawPid line gState hpid hall (by rw [htok]; decide),
      (parseCmd_background_marker_inner rawPid gState).2 line htok⟩

/-- C3 (amended), at the lines `sleep 5 &` and `&`. -/
theorem parseCmd_background_marker_witness :
    (parseCmdChecked 4242 "sleep 5 &".toList cmdInfo.zero getNewShellState =
        some (parseCmd 4242 "sleep 5 &".toList cmdInfo.zero getNewShellState) ∧
      (parseCmd 4242 "sleep 5 &".toList cmdInfo.zero getNewShellState).1 =
        { command := some "sleep".toList,
          args := [some "sleep".toList, some "5".toList, none],
          isIgnored := false, isBackground := true, argsCount := 2,
          inputRedirect := none, outputRedirect := none } ∧
      argv (parseCmd 4242 "sleep 5 &".toList cmdInfo.zero getNewShellState).1 =
        ["sleep".toList, "5".toList]) ∧
    (parseCmdChecked 4242 "&".toList cmdInfo.zero getNewShellState =
        some (parseCmd 4242 "&".toList cmdInfo.zero getNewShellState) ∧
      (parseCmd 4242 "&".toList cmdInfo.zero getNewShellState).1 =
        { command := some ['&'], args := [some ['&']],
          isIgnored := false, isBackground := false, argsCount := 1,
          inputRedirect := none, outputRedirect := none }) :=
  ⟨(parseCmd_background_marker 4242 getNewShellState (by decide)).1 "sleep 5 &".toList
      "sleep".toList ["5".toList] (by decide) (by decide) (by decide) (by decide) (by decide),
   (parseCmd_background_marker 4242 getNewShellState (by decide)).2 "&".toList (by decide)⟩

/-- C3 as stated fails twice. On a token that holds `$$`: the line `echo $$ &`
has the form of the claim, yet in the shell with pid 77 the arguments are
`[echo, 77]`, not the tokens `[echo, $$]`. On a long line: with 513 tokens `a`
before `&` the store of the 514th argument passes the end of `args[513]` and
`parseCmd` has no defined result. -/
theorem parseCmd_background_marker_as_stated_fails :
    (tokens "echo $$ &".toList = "echo".toList :: ["$$".toList] ++ [['&']] ∧
      (parseCmd 77 "echo $$ &".toList cmdInfo.zero getNewShellState).1.isBackground = true ∧
      argv (parseCmd 77 "echo $$ &".toList cmdInfo.zero getNewShellState).1 =
        ["echo".toList, "77".toList] ∧
      argv (parseCmd 77 "echo $$ &".toList cmdInfo.zero getNewShellState).1 ≠
        ["echo".toList, "$$".toList]) ∧
    tokens (manyTokens 513 ++ ['&']) = List.replicate 513 ['a'] ++ [['&']] ∧
    parseCmdChecked 4242 (manyTokens 513 ++ ['&']) cmdInfo.zero getNewShellState = none := by
  have ht : tokens ['&'] = [['&']] := by decide
  refine ⟨by decide, by rw [tokens_manyTokens_append, ht], ?_⟩
  exact parseCmdChecked_many 4242 512 _ getNewShellState (by decide)
    (by rw [ht]; decide) (by rw [ht]; decide)

/-- What `parseCmd` computes, while it stays inside its storage, on a line
without background marker and redirection. -/
theorem parseCmd_plain_line_inner (rawPid : Nat) (line : List Char) (gState : shellState)
    (t0 : List Char) (ts : List (List Char))
    (htok : tokens line = t0 :: ts)
    (hcomment : t0.head? ≠ some '#')
    (hlast : (t0 :: ts).getLast? ≠ some ['&'])
    (hsecond : 2 ≤ ts.length →
      (t0 :: ts)[ts.length - 1]? ≠ some ['<'] ∧ (t0 :: ts)[ts.length - 1]? ≠ some ['>']) :
    (parseCmd rawPid line cmdInfo.zero gState).1 =
      { command := some (expandDoubleDollar rawPid t0),
        args := (t0 :: ts).map (fun t => some (expandDoubleDollar rawPid t)),
        isIgnored := false, isBackground := false,
        argsCount := ts.length + 1,
        inputRedirect := none, outputRedirect := none } ∧
    argv (parseCmd rawPid line cmdInfo.zero gState).1 =
      (t0 :: ts).map (expandDoubleDollar rawPid) := by
  have hc : ¬ (expandDoubleDollar rawPid t0).head? = some '#' := by
    rw [expand_head_hash]; exact hcomment
  have h2 : 3 ≤ (t0 :: ts).length →
      (t0 :: ts)[(t0 :: ts).length - 2]? ≠ some ['<'] ∧
      (t0 :: ts)[(t0 :: ts).length - 2]? ≠ some ['>'] := by
    intro h3
    simp only [List.length_cons] at h3
    have : (t0 :: ts).length - 2 = ts.length - 1 := by simp only [List.length_cons]; omega
    rw [this]
    exact hsecond (by omega)
  have hfin : finishParse (tokenInfo rawPid (t0 :: ts)) = tokenInfo rawPid (t0 :: ts) := by
    unfold finishParse
    have ha : (tokenInfo rawPid (t0 :: ts)).argsCount = ((t0 :: ts).length : Int) := rfl
    rw [ha, parseBackground_plain rawPid _ hlast]
    exact parseRedirect_plain rawPid _ h2
  rw [parseCmd_of_tokens rawPid line gState t0 ts htok, if_neg hc, hfin]
  refine ⟨by simp [tokenInfo], ?_⟩
  have := argv_all_some (t0 :: ts) (expandDoubleDollar rawPid) []
  simpa [argv, tokenInfo] using this

/-- C4 (amended). A line with tokens `t0 ... tk` whose first token does not
begin with `#`, whose last token is not `&` and, when `k >= 2`, whose
second-to-last token is neither `<` nor `>`, with at most 512 tokens, a pid of
at most 9 digits and every token expanding to at most 2048 characters: `parseCmd`
stays inside its storage and yields command `expand(t0)`, arguments
`[expand(t0), ..., expand(tk)]` in order (also as the vector handed to
`execvp`), no redirection and not background; a `<` or `>` elsewhere stays in
the arguments. -/
theorem parseCmd_plain_line (rawPid : Nat) (line : List Char) (gState : shellState)
    (t0 : List Char) (ts : List (List Char))
    (htok : tokens line = t0 :: ts)
    (hcomment : t0.head? ≠ some '#')
    (hlast : (t0 :: ts).getLast? ≠ some ['&'])
    (hsecond : 2 ≤ ts.length →
      (t0 :: ts)[ts.length - 1]? ≠ some ['<'] ∧ (t0 :: ts)[ts.length - 1]? ≠ some ['>'])
    (hpid : (Nat.toDigits 10 rawPid).length ≤ 9)
    (hfit : ∀ t ∈ t0 :: ts, (expandDoubleDollar rawPid t).length ≤ 2048)
    (hcount : ts.length + 1 ≤ 512) :
    parseCmdChecked rawPid line cmdInfo.zero gState =
      some (parseCmd rawPid line cmdInfo.zero gState) ∧
    (parseCmd rawPid line cmdInfo.zero gState).1 =
      { command := some (expandDoubleDollar rawPid t0),
        args := (t0 :: ts).map (fun t => some (expandDoubleDollar rawPid t)),
        isIgnored := false, isBackground := false,
        argsCount := ts.length + 1,
        inputRedirect := none, outputRedirect := none } ∧
    argv (parseCmd rawPid line cmdInfo.zero gState).1 =
      (t0 :: ts).map (expandDoubleDollar rawPid) :=
  ⟨parseCmdChecked_in_bounds rawPid line gState hpid (by rw [htok]; exact hfit)
      (by rw [htok]; exact hcount),
   parseCmd_plain_line_inner rawPid line gState t0 ts htok hcomment hlast hsecond⟩

/-- C4 (amended), at the line `ls -la`. -/
theorem parseCmd_plain_line_witness :
    parseCmdChecked 4242 "ls -la".toList cmdInfo.zero getNewShellState =
      some (parseCmd 4242 "ls -la".toList cmdInfo.zero getNewShellState) ∧
    (parseCmd 4242 "ls -la".toList cmdInfo.zero getNewShellState).1 =
      { command := some "ls".toList,
        args := [some "ls".toList, some "-la".toList],
        isIgnored := false, isBackground := false, argsCount := 2,
        inputRedirect := none, outputRedirect := none } ∧
    argv (parseCmd 4242 "ls -la".toList cmdInfo.zero getNewShellState).1 =
      ["ls".toList, "-la".toList] :=
  parseCmd_plain_line 4242 "ls -la".toList getNewShellState "ls".toList ["-la".toList]
    (by decide) (by decide) (by decide) (by decide) (by decide) (by decide) (by decide)

/-- C4 as stated fails on a line of 514 tokens: the line `a a ... a` has the
form of the claim (first token not a comment, last token not `&`,
second-to-last token not an operator), yet the store of the 514th argument
passes the end of `args[513]` and `parseCmd` has no defined result. -/
theorem parseCmd_overruns_args :
    tokens (manyTokens 514) = List.replicate 514 ['a'] ∧
    parseCmdChecked 4242 (manyTokens 514) cmdInfo.zero getNewShellState = none := by
  have htok : tokens (manyTokens 514) = ['a'] :: List.replicate 513 ['a'] :=
    tokens_manyTokens 514
  have hc : ¬ (expandDoubleDollar 4242 ['a']).head? = some '#' := by
    rw [expand_plain_a]; decide
  have hfit : ∀ t ∈ ['a'] :: List.replicate 513 ['a'],
      (expandDoubleDollar 4242 t).length ≤ 2048 := by
    intro t ht
    have ht' : t = ['a'] := by
      rcases List.mem_cons.mp ht with h | h
      · exact h
      · exact (List.mem_replicate.mp h).2
    rw [ht', expand_plain_a]
    decide
  refine ⟨tokens_manyTokens 514, ?_⟩
  rw [parseCmdChecked_of_tokens 4242 _ getNewShellState ['a'] (List.replicate 513 ['a'])
    htok (by decide) hfit hc]
  rw [if_neg (by rw [List.length_replicate]; decide)]

/-- What `parseCmd` computes, while it stays inside its storage, on a blank line
or a comment. -/
theorem parseCmd_ignored_line_inner (rawPid : Nat) (line : List Char) (gState : shellState)
    (hline : tokens line = [] ∨
      ∃ t0 ts, tokens line = t0 :: ts ∧ t0.head? = some '#') :
    (parseCmd rawPid line cmdInfo.zero gState).1.isIgnored = true ∧
    (parseCmd rawPid line cmdInfo.zero gState).1.isBackground = false ∧
    (parseCmd rawPid line cmdInfo.zero gState).1.inputRedirect = none ∧
    (parseCmd rawPid line cmdInfo.zero gState).1.outputRedirect = none ∧
    (parseCmd rawPid line cmdInfo.zero gState).1.args =
      ((tokens line).take 1).map (fun t => some (expandDoubleDollar rawPid t)) ∧
    (parseCmd rawPid line cmdInfo.zero gState).2 = gState ∧
    ∀ (sys : Sys) (st : shellState),
      handleCmd sys (parseCmd rawPid line cmdInfo.zero gState).1 st = (.returned st, []) := by
  have hcmd : ∀ info : cmdInfo, info.isIgnored = true →
      ∀ (sys : Sys) (st : shellState), handleCmd sys info st = (.returned st, []) := by
    intro info hi sys st
    unfold handleCmd
    rw [if_pos hi]
  rcases hline with h | ⟨t0, ts, h, hhash⟩
  · rw [parseCmd_of_no_tokens rawPid line _ gState h, h]
    exact ⟨rfl, rfl, rfl, rfl, rfl, rfl, hcmd _ rfl⟩
  · have hc : (expandDoubleDollar rawPid t0).head? = some '#' := by
      rw [expand_head_hash]; exact hhash
    rw [parseCmd_of_tokens rawPid line gState t0 ts h, if_pos hc, h]
    exact ⟨rfl, rfl, rfl, rfl, rfl, rfl, hcmd _ rfl⟩

/-- C5 (amended). For every line without tokens (empty or only spaces) and
every line whose first token begins with `#` and expands to at most 2048
characters (the pid having at most 9 digits), `parseCmd` stays inside its
storage, sets `isIgnored`, leaves `isBackground` false and both redirections
unset, stores at most the first token and leaves the shell state as it was;
`handleCmd` on the resulting command returns the shell state unchanged and has
no effect at all, so no process is launched. -/
theorem parseCmd_ignored_line (rawPid : Nat) (line : List Char) (gState : shellState)
    (hline : tokens line = [] ∨
      ∃ t0 ts, tokens line = t0 :: ts ∧ t0.head? = some '#' ∧
        (Nat.toDigits 10 rawPid).length ≤ 9 ∧
        (expandDoubleDollar rawPid t0).length ≤ 2048) :
    parseCmdChecked rawPid line cmdInfo.zero gState =
      some (parseCmd rawPid line cmdInfo.zero gState) ∧
    (parseCmd rawPid line cmdInfo.zero gState).1.isIgnored = true ∧
    (parseCmd rawPid line cmdInfo.zero gState).1.isBackground = false ∧
    (parseCmd rawPid line cmdInfo.zero gState).1.inputRedirect = none ∧
    (parseCmd rawPid line cmdInfo.zero gState).1.outputRedirect = none ∧
    (parseCmd rawPid line cmdInfo.zero gState).1.args =
      ((tokens line).take 1).map (fun t => some (expandDoubleDollar rawPid t)) ∧
    (parseCmd rawPid line cmdInfo.zero gState).2 = gState ∧
    ∀ (sys : Sys) (st : shellState),
      handleCmd sys (parseCmd rawPid line cmdInfo.zero gState).1 st = (.returned st, []) := by
  rcases hline with h | ⟨t0, ts, h, hhash, hpid, hfit⟩
  · exact ⟨parseCmdChecked_of_no_tokens rawPid line _ gState h,
      parseCmd_ignored_line_inner rawPid line gState (Or.inl h)⟩
  · exact ⟨parseCmdChecked_of_comment rawPid line gState t0 ts h hpid hfit
        ((expand_head_hash rawPid t0).mpr hhash),
      parseCmd_ignored_line_inner rawPid line gState (Or.inr ⟨t0, ts, h, hhash⟩)⟩

/-- C5 (amended), at the line `# a comment > x &`. -/
theorem parseCmd_ignored_line_witness :
    parseCmdChecked 4242 "# a comment > x &".toList cmdInfo.zero getNewShellState =
      some (parseCmd 4242 "# a comment > x &".toList cmdInfo.zero getNewShellState) ∧
    (parseCmd 4242 "# a comment > x &".toList cmdInfo.zero getNewShellState).1.isIgnored = true ∧
    (parseCmd 4242 "# a comment > x &".toList cmdInfo.zero getNewShellState).1.isBackground
      = false ∧
    (parseCmd 4242 "# a comment > x &".toList cmdInfo.zero getNewShellState).1.inputRedirect
      = none ∧
    (parseCmd 4242 "# a comment > x &".toList cmdInfo.zero getNewShellState).1.outputRedirect
      = none ∧
    (parseCmd 4242 "# a comment > x &".toList cmdInfo.zero getNewShellState).1.args =
      ((tokens "# a comment > x &".toList).take 1).map
        (fun t => some (expandDoubleDollar 4242 t)) ∧
    (parseCmd 4242 "# a comment > x &".toList cmdInfo.zero getNewShellState).2
      = getNewShellState ∧
    ∀ (sys : Sys) (st : shellState),
      handleCmd sys (parseCmd 4242 "# a comment > x &".toList cmdInfo.zero getNewShellState).1 st
        = (.returned st, []) :=
  parseCmd_ignored_line 4242 "# a comment > x &".toList getNewShellState
    (Or.inr ⟨"#".toList, ["a".toList, "comment".toList, ">".toList, "x".toList, "&".toList],
      by decide, by decide, by decide, by decide⟩)

/-! ## Background registry and executor: theorems -/

/-- C8, evaluated at the registry `[1, 2]` with process 1 still running and
process 2 exited: after the per-prompt reap the registry is empty, so the
running entry 1 has been dropped together with the terminated entry 2. -/
theorem reap_drops_running_entry :
    sysSecondDone.waitNoHang 1 = .running ∧
    sysSecondDone.waitNoHang 2 = .terminated (.exited 0) ∧
    (reapBackgroundProcesses sysSecondDone true false
      { getNewShellState with head := [1, 2] }).1.head = [] ∧
    (reapBackgroundProcesses sysSecondDone true false
      { getNewShellState with head := [1, 2] }).1.head ≠ [1] := by
  decide

/-- C9, evaluated at `exit` with the two running background processes 100 and
200 in the registry: the shell exits with status 0 after two non-blocking waits
and no signal is sent to either process; the reap it would need,
`reapBackgroundProcesses(false, true)`, does signal both. -/
theorem exit_sends_no_signal :
    handleCmd sysAllRunning
      (parseCmd 4242 "exit".toList cmdInfo.zero { getNewShellState with head := [100, 200] }).1
      { getNewShellState with head := [100, 200] } =
      (.exited 0, [.waitNoHang 100, .waitNoHang 200]) ∧
    killed (handleCmd sysAllRunning
      (parseCmd 4242 "exit".toList cmdInfo.zero { getNewShellState with head := [100, 200] }).1
      { getNewShellState with head := [100, 200] }).2 = [] ∧
    killed (reapBackgroundProcesses sysAllRunning false true
      { getNewShellState with head := [100, 200] }).2 = [100, 200] := by
  decide

/-- C10, evaluated at the registry `[4, 5, 6]` where 5 has exited with code 3 and
6 was killed by signal 15: the verbose reap prints the line for 5, sets the head
to the node of 6, frees the node of 5 and then reads that node's `next` field.
From that read on the source has no defined behaviour, so the line for 6 is not
among what the reap is known to print. -/
theorem verbose_reap_reads_freed_node :
    sysTwoDone.waitNoHang 6 = .terminated (.signaled 15) ∧
    reapBackgroundProcessesChecked sysTwoDone true false
        { getNewShellState with head := [4, 5, 6] } =
      { state := { head := [6], prev := none, pidStatus := .exited 3 },
        trace := [.waitNoHang 4, .waitNoHang 5, .print (.bgDoneExit 5 3)],
        readFreed := true } := by
  decide

/-! ## Command executor: lemmas -/

theorem attachLast_eq (pid : Int) (rest : List Int) (newPid : Int) :
    attachLast pid rest newPid = pid :: rest ++ [newPid] := by
  induction rest generalizing pid with
  | nil => rfl
  | cons next rest ih => simp [attachLast, ih]

theorem registerPid_eq (head : List Int) (spawnPid : Int) :
    registerPid head spawnPid = head ++ [spawnPid] := by
  cases head with
  | nil => rfl
  | cons pid rest => simp [registerPid, attachLast_eq]

theorem handleCmd_external_parent (sys : Sys) (info : cmdInfo) (st : shellState)
    (c : List Char) (hign : info.isIgnored = false) (hcmd : info.command = some c)
    (hcd : c ≠ "cd".toList) (hexit : c ≠ "exit".toList) (hstatus : c ≠ "status".toList)
    (hparent : 0 < sys.spawnPid) :
    handleCmd sys info st =
      (.returned (handleCmdDefault sys (info.isBackground && !st.backgroundIgnored) st).1,
       .fork :: (handleCmdDefault sys (info.isBackground && !st.backgroundIgnored) st).2) := by
  have h1 : sys.spawnPid ≠ -1 := by omega
  have h0 : sys.spawnPid ≠ 0 := by omega
  unfold handleCmd
  simp only [hign, hcmd, if_neg hcd, if_neg hexit, if_neg hstatus, if_neg h1, if_neg h0]
  simp

theorem handleCmd_status (sys : Sys) (info : cmdInfo) (st : shellState)
    (hign : info.isIgnored = false) (hcmd : info.command = some "status".toList) :
    handleCmd sys info st = (.returned st, [.print (.status st.status)]) := by
  have h1 : ¬ "status".toList = "cd".toList := by decide
  have h2 : ¬ "status".toList = "exit".toList := by decide
  unfold handleCmd
  simp only [hign, hcmd, if_neg h1, if_neg h2]
  simp

/-- C11. For every non-comment external command, in the shell (where `fork`
returned the pid of the child): when `isBackground` is set and foreground-only
mode is off, `handleCmd` appends the pid of the child to the registry, prints
it, does not wait and leaves the status message as it was; in every other case,
a `&` command in foreground-only mode included, it waits for the child, sets
the status message from how the child ended and leaves the registry as it
was. -/
theorem handleCmd_background_iff (sys : Sys) (info : cmdInfo) (st : shellState)
    (c : List Char) (hign : info.isIgnored = false) (hcmd : info.command = some c)
    (hcd : c ≠ "cd".toList) (hexit : c ≠ "exit".toList) (hstatus : c ≠ "status".toList)
    (hparent : 0 < sys.spawnPid) :
    (info.isBackground = true ∧ st.backgroundIgnored = false →
      handleCmd sys info st =
        (.returned { st with head := st.head ++ [sys.spawnPid] },
         [.fork, .print (.backgroundPid sys.spawnPid)])) ∧
    (¬(info.isBackground = true ∧ st.backgroundIgnored = false) →
      handleCmd sys info st =
        match sys.childStatus with
        | .exited exitStatus =>
          (.returned { st with
              status := "exit value ".toList ++ Nat.toDigits 10 exitStatus ++ ['\n'] },
           [.fork, .sigBlock .SIGTSTP, .waitBlocking sys.spawnPid, .sigUnblock .SIGTSTP])
        | .signaled exitSignal =>
          (.returned { st with
              status := "terminated by signal ".toList ++ Nat.toDigits 10 exitSignal ++ ['\n'] },
           [.fork, .sigBlock .SIGTSTP, .waitBlocking sys.spawnPid, .sigUnblock .SIGTSTP,
            .print (.terminatedBySignal exitSignal)])) := by
  rw [handleCmd_external_parent sys info st c hign hcmd hcd hexit hstatus hparent]
  constructor
  · rintro ⟨hb, hm⟩
    simp [handleCmdDefault, hb, hm, registerPid_eq]
  · intro hnot
    have hbg : (info.isBackground && !st.backgroundIgnored) = false := by
      cases hb : info.isBackground <;> cases hm : st.backgroundIgnored <;> simp_all
    rw [hbg]
    cases hs : sys.childStatus <;> simp [handleCmdDefault, hs]

/-- C11, at `sleep 5 &` in the shell, once with foreground-only mode off and
once with it on. -/
theorem handleCmd_background_iff_witness :
    handleCmd sysChildExitsSeven
        (parseCmd 4242 "sleep 5 &".toList cmdInfo.zero getNewShellState).1 getNewShellState =
      (.returned { getNewShellState with head := [300] },
       [.fork, .print (.backgroundPid 300)]) ∧
    handleCmd sysChildExitsSeven
        (parseCmd 4242 "sleep 5 &".toList cmdInfo.zero getNewShellState).1
        { getNewShellState with backgroundIgnored := true } =
      (.returned { getNewShellState with
          backgroundIgnored := true, status := "exit value 7\n".toList },
       [.fork, .sigBlock .SIGTSTP, .waitBlocking 300, .sigUnblock .SIGTSTP]) :=
  ⟨(handleCmd_background_iff sysChildExitsSeven
      (parseCmd 4242 "sleep 5 &".toList cmdInfo.zero getNewShellState).1 getNewShellState
      "sleep".toList (by decide) (by decide) (by decide) (by decide) (by decide)
      (by decide)).1 (by decide),
   (handleCmd_background_iff sysChildExitsSeven
      (parseCmd 4242 "sleep 5 &".toList cmdInfo.zero getNewShellState).1
      { getNewShellState with backgroundIgnored := true }
      "sleep".toList (by decide) (by decide) (by decide) (by decide) (by decide)
      (by decide)).2 (by decide)⟩

/-- C12. After a foreground external command whose child exits normally with
code `N`, the status message is `exit value N` followed by a newline, and the
built-in `status` run on that state prints exactly this text and changes
nothing; if the child was killed by signal `S` the status message is
`terminated by signal S` followed by a newline, and the same text is printed at
once after the wait. -/
theorem foreground_status_message (sys : Sys) (info : cmdInfo) (st : shellState)
    (c : List Char) (hign : info.isIgnored = false) (hcmd : info.command = some c)
    (hcd : c ≠ "cd".toList) (hexit : c ≠ "exit".toList) (hstatus : c ≠ "status".toList)
    (hparent : 0 < sys.spawnPid)
    (hfg : ¬(info.isBackground = true ∧ st.backgroundIgnored = false)) :
    (∀ N : Nat, sys.childStatus = .exited N →
      (handleCmd sys info st).1 =
        .returned { st with status := "exit value ".toList ++ Nat.toDigits 10 N ++ ['\n'] } ∧
      printed (handleCmd sys info st).2 = [] ∧
      ∀ (sys2 : Sys) (info2 : cmdInfo), info2.isIgnored = false →
        info2.command = some "status".toList →
        handleCmd sys2 info2
            { st with status := "exit value ".toList ++ Nat.toDigits 10 N ++ ['\n'] } =
          (.returned { st with status := "exit value ".toList ++ Nat.toDigits 10 N ++ ['\n'] },
           [.print (.status ("exit value ".toList ++ Nat.toDigits 10 N ++ ['\n']))]) ∧
        (Message.status ("exit value ".toList ++ Nat.toDigits 10 N ++ ['\n'])).text =
          "exit value ".toList ++ Nat.toDigits 10 N ++ ['\n']) ∧
    (∀ S : Nat, sys.childStatus = .signaled S →
      (handleCmd sys info st).1 =
        .returned { st with
          status := "terminated by signal ".toList ++ Nat.toDigits 10 S ++ ['\n'] } ∧
      printed (handleCmd sys info st).2 = [.terminatedBySignal S] ∧
      (Message.terminatedBySignal S).text =
        "terminated by signal ".toList ++ Nat.toDigits 10 S ++ ['\n']) := by
  have hbg : (info.isBackground && !st.backgroundIgnored) = false := by
    cases hb : info.isBackground <;> cases hm : st.backgroundIgnored <;> simp_all
  rw [handleCmd_external_parent sys info st c hign hcmd hcd hexit hstatus hparent, hbg]
  constructor
  · intro N hN
    refine ⟨by simp [handleCmdDefault, hN], by simp [handleCmdDefault, hN, printed], ?_⟩
    intro sys2 info2 hign2 hcmd2
    exact ⟨handleCmd_status sys2 info2 _ hign2 hcmd2, rfl⟩
  · intro S hS
    exact ⟨by simp [handleCmdDefault, hS], by simp [handleCmdDefault, hS, printed], rfl⟩

/-- C12, at a child that exits with code 7: the status message is
`exit value 7` and `status` prints it. -/
theorem foreground_status_message_witness :
    (handleCmd sysChildExitsSeven
        (parseCmd 4242 "false".toList cmdInfo.zero getNewShellState).1 getNewShellState).1 =
      .returned { getNewShellState with status := "exit value 7\n".toList } ∧
    handleCmd sysAllRunning
        (parseCmd 4242 "status".toList cmdInfo.zero getNewShellState).1
        { getNewShellState with status := "exit value 7\n".toList } =
      (.returned { getNewShellState with status := "exit value 7\n".toList },
       [.print (.status "exit value 7\n".toList)]) ∧
    (Message.status "exit value 7\n".toList).text = "exit value 7\n".toList :=
  have h := (foreground_status_message sysChildExitsSeven
    (parseCmd 4242 "false".toList cmdInfo.zero getNewShellState).1 getNewShellState
    "false".toList (by decide) (by decide) (by decide) (by decide) (by decide) (by decide)
    (by decide)).1 7 (by decide)
  ⟨h.1, (h.2.2 sysAllRunning
    (parseCmd 4242 "status".toList cmdInfo.zero getNewShellState).1 (by decide) (by decide)).1,
    (h.2.2 sysAllRunning
    (parseCmd 4242 "status".toList cmdInfo.zero getNewShellState).1 (by decide) (by decide)).2⟩

/-- C13. For every shell state, running `handleSIGTSTP` twice gives back the
state it started from; one run negates `backgroundIgnored`, leaves `status`,
`currentDir`, the registry and `currentCmd` as they were, and writes the
`Entering foreground-only mode (& is now ignored)` line when it turns the mode
on and the `Exiting foreground-only mode` line when it turns it off. -/
theorem handleSIGTSTP_toggles (gState : shellState) :
    (handleSIGTSTP (handleSIGTSTP gState).1).1 = gState ∧
    (handleSIGTSTP gState).1 =
      { gState with backgroundIgnored := !gState.backgroundIgnored } ∧
    (handleSIGTSTP gState).2 =
      [.print (if gState.backgroundIgnored = true then Message.exitingForegroundOnly
        else Message.enteringForegroundOnly)] ∧
    Message.enteringForegroundOnly.text =
      "Entering foreground-only mode (& is now ignored)\n".toList ∧
    Message.exitingForegroundOnly.text = "Exiting foreground-only mode\n".toList := by
  obtain ⟨status, currentDir, head, backgroundIgnored, currentCmd⟩ := gState
  cases backgroundIgnored
  · exact ⟨rfl, rfl, rfl, by decide, by decide⟩
  · exact ⟨rfl, rfl, rfl, by decide, by decide⟩

/-- C14. For every registry content `L` and every child pid `p`, launching a
background command leaves the registry equal to `L` followed by `p`, and a
second launch with child pid `q` leaves `L` followed by `p` and `q`: the order
of the registry is the order of the launches. -/
theorem background_launch_appends (sys sys2 : Sys) (info : cmdInfo) (st : shellState)
    (c : List Char) (hign : info.isIgnored = false) (hcmd : info.command = some c)
    (hcd : c ≠ "cd".toList) (hexit : c ≠ "exit".toList) (hstatus : c ≠ "status".toList)
    (hparent : 0 < sys.spawnPid) (hparent2 : 0 < sys2.spawnPid)
    (hbg : info.isBackground = true) (hmode : st.backgroundIgnored = false) :
    (handleCmd sys info st).1 = .returned { st with head := st.head ++ [sys.spawnPid] } ∧
    (handleCmd sys2 info { st with head := st.head ++ [sys.spawnPid] }).1 =
      .returned { st with head := st.head ++ [sys.spawnPid, sys2.spawnPid] } ∧
    registerPid st.head sys.spawnPid = st.head ++ [sys.spawnPid] := by
  refine ⟨?_, ?_, registerPid_eq _ _⟩
  · rw [handleCmd_external_parent sys info st c hign hcmd hcd hexit hstatus hparent]
    simp [handleCmdDefault, hbg, hmode, registerPid_eq]
  · rw [handleCmd_external_parent sys2 info _ c hign hcmd hcd hexit hstatus hparent2]
    simp [handleCmdDefault, hbg, hmode, registerPid_eq]

/-- C14, at the registry `[100, 200]` and two launches of `sleep 5 &` with
child pids 300 and 301. -/
theorem background_launch_appends_witness :
    (handleCmd sysAllRunning
        (parseCmd 4242 "sleep 5 &".toList cmdInfo.zero getNewShellState).1
        { getNewShellState with head := [100, 200] }).1 =
      .returned { getNewShellState with head := [100, 200] ++ [300] } ∧
    (handleCmd sysSecondLaunch
        (parseCmd 4242 "sleep 5 &".toList cmdInfo.zero getNewShellState).1
        { getNewShellState with head := [100, 200] ++ [300] }).1 =
      .returned { getNewShellState with head := [100, 200] ++ [300, 301] } ∧
    registerPid [100, 200] 300 = [100, 200] ++ [300] :=
  background_launch_appends sysAllRunning sysSecondLaunch
    (parseCmd 4242 "sleep 5 &".toList cmdInfo.zero getNewShellState).1
    { getNewShellState with head := [100, 200] } "sleep".toList
    (by decide) (by decide) (by decide) (by decide) (by decide) (by decide) (by decide)
    (by decide) (by decide)

/-- C20, evaluated in the forked child for `./notes.txt` when `execvp` fails
with `EACCES`: the child does not terminate. It runs the `default:` branch,
waits on pid 0, overwrites the status message and returns to the shell loop;
for `./notes.txt &` it stores pid 0 in the registry, prints it and returns. -/
theorem child_continues_after_failed_exec :
    handleCmd sysChildExecDenied
        (parseCmd 4242 "./notes.txt".toList cmdInfo.zero getNewShellState).1
        getNewShellState =
      (.returned { getNewShellState with status := "exit value 3\n".toList },
       [.fork, .sigaction .SIGINT .default, .sigaction .SIGTSTP .ignore,
        .execvp (some "./notes.txt".toList) ["./notes.txt".toList],
        .sigBlock .SIGTSTP, .waitBlocking 0, .sigUnblock .SIGTSTP]) ∧
    (handleCmd sysChildExecDenied
        (parseCmd 4242 "./notes.txt".toList cmdInfo.zero getNewShellState).1
        getNewShellState).1 ≠ .exited 1 ∧
    handleCmd sysChildExecDenied
        (parseCmd 4242 "./notes.txt &".toList cmdInfo.zero getNewShellState).1
        getNewShellState =
      (.returned { getNewShellState with head := [0] },
       [.fork, .sigaction .SIGTSTP .ignore,
        .openRead devNull, .dup2 3 0, .openWrite devNull, .dup2 3 1,
        .execvp (some "./notes.txt".toList) ["./notes.txt".toList],
        .print (.backgroundPid 0)]) := by
  decide

theorem reapLoop_quiet (sys : Sys) (killall : Bool) :
    ∀ (curr : List Int) (st : ReapState),
      (reapLoop sys false killall curr st).1.head = st.head ∧
      printed (reapLoop sys false killall curr st).2 = [] ∧
      (reapLoop sys false killall curr st).2.filter isKill =
        if killall = true then
          (curr.filter (fun p => decide (sys.waitNoHang p = .running))).map
            (fun p => Effect.kill p .SIGTERM)
        else []
  | [], st => by cases killall <;> simp [reapLoop, printed]
  | p :: next, st => by
    by_cases hr : sys.waitNoHang p = .running
    · cases killall with
      | false =>
        have ih := reapLoop_quiet sys false next { st with pidStatus := statusAfter .running st.pidStatus }
        simp only [reapLoop, hr]
        simp only [Bool.false_eq_true, and_false, if_false] at ih ⊢
        exact ⟨ih.1, by simpa [printed] using ih.2.1, by simpa [isKill] using ih.2.2⟩
      | true =>
        have ih := reapLoop_quiet sys true next
          { st with pidStatus := statusAfter (sys.waitAfterKill p) (statusAfter .running st.pidStatus) }
        simp only [reapLoop, hr]
        simp only [Bool.false_eq_true, and_false, if_false, and_self, if_true] at ih ⊢
        refine ⟨ih.1, by simpa [printed] using ih.2.1, ?_⟩
        simp [isKill, hr, ih.2.2]
    · have ih := reapLoop_quiet sys killall next
        { st with pidStatus := statusAfter (sys.waitNoHang p) st.pidStatus }
      simp only [reapLoop, hr]
      simp only [Bool.false_eq_true, and_false, false_and, if_false] at ih ⊢
      refine ⟨ih.1, by simpa [printed] using ih.2.1, ?_⟩
      cases killall <;> simp_all [isKill]

/-- C16. For every registry content and every outcome of the non-blocking
waits, `reapBackgroundProcesses(false, true)` calls `kill` with `SIGTERM` on
exactly the entries whose wait reported them still running, in insertion order,
prints nothing and leaves the whole shell state, the registry included, as it
was. -/
theorem killall_reap_signals_running (sys : Sys) (gState : shellState) :
    (reapBackgroundProcesses sys false true gState).2.filter isKill =
      (gState.head.filter (fun p => decide (sys.waitNoHang p = .running))).map
        (fun p => Effect.kill p .SIGTERM) ∧
    killed (reapBackgroundProcesses sys false true gState).2 =
      gState.head.filter (fun p => decide (sys.waitNoHang p = .running)) ∧
    (reapBackgroundProcesses sys false true gState).1 = gState ∧
    printed (reapBackgroundProcesses sys false true gState).2 = [] := by
  have h := reapLoop_quiet sys true gState.head
    { head := gState.head, prev := none, pidStatus := sys.pidStatus0 }
  simp only [if_true] at h
  have hk : ∀ trace : List Effect, killed (trace.filter isKill) = killed trace := by
    intro trace
    induction trace with
    | nil => rfl
    | cons e rest ih =>
      cases e <;> simp_all [killed, isKill, List.filter_cons]
  have hm : ∀ l : List Int, killed (l.map (fun p => Effect.kill p .SIGTERM)) = l := by
    intro l
    induction l with
    | nil => rfl
    | cons a l ih => simp_all [killed]
  refine ⟨h.2.2, ?_, ?_, h.2.1⟩
  · rw [← hk]
    simp only [reapBackgroundProcesses]
    rw [h.2.2, hm]
  · simp only [reapBackgroundProcesses]
    rw [h.1]

/-! ## Tokenizer: splitting on spaces -/

theorem isDelim_space (x : Char) : isDelim cmdDelim x = decide (x = ' ') := by
  by_cases h : x = ' ' <;> simp [isDelim, cmdDelim, h]

theorem strtok_r_cons_space (cs : List Char) :
    strtok_r (' ' :: cs) cmdDelim = strtok_r cs cmdDelim := by
  unfold strtok_r
  rw [List.dropWhile_cons_of_pos (by simp [isDelim_space])]

theorem tokens_cons_space (cs : List Char) : tokens (' ' :: cs) = tokens cs := by
  cases h : strtok_r cs cmdDelim with
  | none =>
    rw [tokens_of_strtok_none h, tokens_of_strtok_none (by rw [strtok_r_cons_space, h])]
  | some tr =>
    obtain ⟨t, r⟩ := tr
    rw [tokens_of_strtok_some h, tokens_of_strtok_some (by rw [strtok_r_cons_space, h])]

theorem strtok_r_cons_char (c : Char) (cs : List Char) (hc : c ≠ ' ') :
    strtok_r (c :: cs) cmdDelim =
      some (c :: cs.takeWhile (fun x => !isDelim cmdDelim x),
            (cs.dropWhile (fun x => !isDelim cmdDelim x)).drop 1) := by
  unfold strtok_r
  rw [List.dropWhile_cons_of_neg (by simp [isDelim_space, hc])]
  simp only
  rw [List.takeWhile_cons_of_pos (by simp [isDelim_space, hc]),
    List.dropWhile_cons_of_pos (by simp [isDelim_space, hc])]

theorem tokens_eq_spaceRuns : ∀ line : List Char, tokens line = spaceRuns line
  | [] => rfl
  | c :: cs => by
    have ih := tokens_eq_spaceRuns cs
    by_cases hc : c = ' '
    · subst hc
      rw [tokens_cons_space, ih]
      simp [spaceRuns]
    · rw [tokens_of_strtok_some (strtok_r_cons_char c cs hc)]
      cases cs with
      | nil => simp [spaceRuns, hc, tokens, tokensLoop]
      | cons d r =>
        by_cases hd : d = ' '
        · subst hd
          rw [List.takeWhile_cons_of_neg (by simp [isDelim_space]),
            List.dropWhile_cons_of_neg (by simp [isDelim_space])]
          rw [tokens_cons_space] at ih
          simp [spaceRuns, hc, ih]
        · rw [tokens_of_strtok_some (strtok_r_cons_char d r hd)] at ih
          rw [List.takeWhile_cons_of_pos (by simp [isDelim_space, hd]),
            List.dropWhile_cons_of_pos (by simp [isDelim_space, hd])]
          simp only [spaceRuns, if_neg hc, if_neg hd] at ih ⊢
          rw [← ih]
          rfl

theorem consFirst_clean (c : Char) (hc : c ≠ ' ') (runs : List (List Char))
    (h : ∀ t ∈ runs, t ≠ [] ∧ ' ' ∉ t) : ∀ t ∈ consFirst c runs, t ≠ [] ∧ ' ' ∉ t := by
  intro t ht
  cases runs with
  | nil =>
    simp only [consFirst, List.mem_singleton] at ht
    subst ht
    simp [Ne.symm hc]
  | cons f fs =>
    simp only [consFirst] at ht
    rcases List.mem_cons.mp ht with rfl | ht
    · refine ⟨by simp, ?_⟩
      intro hmem
      rcases List.mem_cons.mp hmem with h' | h'
      · exact hc h'.symm
      · exact (h f (by simp)).2 h'
    · exact h t (List.mem_cons_of_mem _ ht)

theorem spaceRuns_clean : ∀ line : List Char, ∀ t ∈ spaceRuns line, t ≠ [] ∧ ' ' ∉ t
  | [] => by simp [spaceRuns]
  | c :: cs => by
    have ih := spaceRuns_clean cs
    by_cases hc : c = ' '
    · subst hc
      simpa [spaceRuns] using ih
    · cases cs with
      | nil =>
        intro t ht
        simp only [spaceRuns, if_neg hc, List.mem_singleton] at ht
        subst ht
        simp [Ne.symm hc]
      | cons d r =>
        by_cases hd : d = ' '
        · intro t ht
          simp only [spaceRuns, if_neg hc, if_pos hd] at ht
          rcases List.mem_cons.mp ht with rfl | ht
          · simp [Ne.symm hc]
          · exact ih t (by simpa [spaceRuns, hd] using ht)
        · intro t ht
          have hrun : spaceRuns (c :: d :: r) = consFirst c (spaceRuns (d :: r)) := by
            simp [spaceRuns, hc, hd]
          rw [hrun] at ht
          exact consFirst_clean c hc _ ih t ht

theorem join_consFirst (c : Char) {runs : List (List Char)} (h : runs ≠ []) :
    (consFirst c runs).flatten = c :: runs.flatten := by
  cases runs with
  | nil => exact absurd rfl h
  | cons f fs => simp [consFirst]

theorem spaceRuns_ne_nil (d : Char) (r : List Char) (hd : d ≠ ' ') :
    spaceRuns (d :: r) ≠ [] := by
  cases r with
  | nil => simp [spaceRuns, hd]
  | cons e r' =>
    by_cases he : e = ' '
    · simp [spaceRuns, hd, he]
    · simp only [spaceRuns, if_neg hd, if_neg he]
      cases (match r' with
        | [] => [[e]]
        | d_1 :: tail => if d_1 = ' ' then [e] :: spaceRuns r'
          else consFirst e (spaceRuns r')) <;> simp [consFirst]

theorem spaceRuns_join : ∀ line : List Char,
    (spaceRuns line).flatten = line.filter (fun x => decide (x ≠ ' '))
  | [] => rfl
  | c :: cs => by
    have ih := spaceRuns_join cs
    by_cases hc : c = ' '
    · subst hc
      simpa [spaceRuns] using ih
    · cases cs with
      | nil => simp [spaceRuns, hc]
      | cons d r =>
        by_cases hd : d = ' '
        · have hrun : spaceRuns (c :: d :: r) = [c] :: spaceRuns (d :: r) := by
            simp [spaceRuns, hc, hd]
          rw [hrun, List.flatten_cons, ih]
          simp [hc]
        · have hrun : spaceRuns (c :: d :: r) = consFirst c (spaceRuns (d :: r)) := by
            simp [spaceRuns, hc, hd]
          rw [hrun, join_consFirst c (spaceRuns_ne_nil d r hd), ih]
          simp [hc]

/-- C17 (amended). `parseCmd` splits the line on runs of the space character
only: for every line the tokens are the maximal runs of characters other than
the space, in order, so no token is empty or holds a space, the tokens together
are the characters of the line other than spaces, and leading, trailing and
repeated spaces produce nothing (`  ls   -la ` gives `ls` and `-la`); a line of
at most 512 tokens, each expanding to at most 2048 characters, with a pid of at
most 9 digits, is parsed inside the storage of `parseCmd` and, when it is not
blank or a comment, from exactly these tokens. -/
theorem parseCmd_splits_on_spaces (rawPid : Nat) (line : List Char) (gState : shellState) :
    tokens line = spaceRuns line ∧
    (tokens line).all (fun t => !t.isEmpty && !t.contains ' ') = true ∧
    (tokens line).flatten = line.filter (fun x => decide (x ≠ ' ')) ∧
    ((Nat.toDigits 10 rawPid).length ≤ 9 →
      (∀ t ∈ tokens line, (expandDoubleDollar rawPid t).length ≤ 2048) →
      (tokens line).length ≤ 512 →
      parseCmdChecked rawPid line cmdInfo.zero gState =
        some (parseCmd rawPid line cmdInfo.zero gState) ∧
      ((parseCmd rawPid line cmdInfo.zero gState).1.isIgnored = true ∨
        (parseCmd rawPid line cmdInfo.zero gState).1 =
          finishParse (tokenInfo rawPid (tokens line)))) ∧
    tokens "  ls   -la ".toList = ["ls".toList, "-la".toList] ∧
    ((Nat.toDigits 10 rawPid).length ≤ 9 →
      parseCmdChecked rawPid "  ls   -la ".toList cmdInfo.zero gState =
        some (parseCmd rawPid "  ls   -la ".toList cmdInfo.zero gState) ∧
      argv (parseCmd rawPid "  ls   -la ".toList cmdInfo.zero gState).1 =
        ["ls".toList, "-la".toList]) := by
  have hls : expandDoubleDollar rawPid "ls".toList = "ls".toList := by
    rw [expand_eq_replace]; exact replace_of_count_zero _ _ (by decide)
  have hla : expandDoubleDollar rawPid "-la".toList = "-la".toList := by
    rw [expand_eq_replace]; exact replace_of_count_zero _ _ (by decide)
  refine ⟨tokens_eq_spaceRuns line, ?_, ?_, ?_, by decide, ?_⟩
  · rw [List.all_eq_true, tokens_eq_spaceRuns]
    intro t ht
    have := spaceRuns_clean line t ht
    cases t with
    | nil => exact absurd rfl this.1
    | cons a t => simpa using this.2
  · rw [tokens_eq_spaceRuns, spaceRuns_join]
  · intro hpid hfit hcount
    refine ⟨parseCmdChecked_in_bounds rawPid line gState hpid hfit hcount, ?_⟩
    cases h : tokens line with
    | nil =>
      left
      rw [parseCmd_of_no_tokens rawPid line _ gState h]
    | cons t0 ts =>
      rw [parseCmd_of_tokens rawPid line gState t0 ts h]
      by_cases hc : (expandDoubleDollar rawPid t0).head? = some '#'
      · left
        rw [if_pos hc]
      · right
        rw [if_neg hc]
  · intro hpid
    have htok : tokens "  ls   -la ".toList = ["ls".toList, "-la".toList] := by decide
    have hfit : ∀ t ∈ tokens "  ls   -la ".toList,
        (expandDoubleDollar rawPid t).length ≤ 2048 := by
      intro t ht
      rw [htok] at ht
      rcases List.mem_cons.mp ht with h | h
      · rw [h, hls]; decide
      · rw [List.mem_singleton.mp h, hla]; decide
    refine ⟨parseCmdChecked_in_bounds rawPid _ gState hpid hfit (by rw [htok]; decide), ?_⟩
    have hc : ¬ (expandDoubleDollar rawPid "ls".toList).head? = some '#' := by
      rw [expand_head_hash]; decide
    have hfin : finishParse (tokenInfo rawPid ["ls".toList, "-la".toList]) =
        tokenInfo rawPid ["ls".toList, "-la".toList] := by
      unfold finishParse
      have ha : (tokenInfo rawPid ["ls".toList, "-la".toList]).argsCount =
          ((["ls".toList, "-la".toList] : List (List Char)).length : Int) := rfl
      rw [ha, parseBackground_plain rawPid _ (by decide)]
      exact parseRedirect_plain rawPid _ (by decide)
    rw [parseCmd_of_tokens rawPid _ gState "ls".toList ["-la".toList] htok, if_neg hc,
      hfin]
    simp only [tokenInfo, List.map, hls, hla]
    rfl

/-- C17 (amended), at the line ` echo   hi ` and pid 4242. -/
theorem parseCmd_splits_on_spaces_witness :
    (parseCmdChecked 4242 " echo   hi ".toList cmdInfo.zero getNewShellState =
        some (parseCmd 4242 " echo   hi ".toList cmdInfo.zero getNewShellState) ∧
      ((parseCmd 4242 " echo   hi ".toList cmdInfo.zero getNewShellState).1.isIgnored = true ∨
        (parseCmd 4242 " echo   hi ".toList cmdInfo.zero getNewShellState).1 =
          finishParse (tokenInfo 4242 (tokens " echo   hi ".toList)))) ∧
    (parseCmdChecked 4242 "  ls   -la ".toList cmdInfo.zero getNewShellState =
        some (parseCmd 4242 "  ls   -la ".toList cmdInfo.zero getNewShellState) ∧
      argv (parseCmd 4242 "  ls   -la ".toList cmdInfo.zero getNewShellState).1 =
        ["ls".toList, "-la".toList]) :=
  ⟨(parseCmd_splits_on_spaces 4242 " echo   hi ".toList getNewShellState).2.2.2.1
      (by decide) (by decide) (by decide),
   (parseCmd_splits_on_spaces 4242 " echo   hi ".toList getNewShellState).2.2.2.2.2
      (by decide)⟩

/-- C17 as stated fails twice. For a tab: the line `ls<TAB>-la` is one token,
and `parseCmd` hands the single argument `ls<TAB>-la` to `execvp`, not `ls` and
`-la`. On a long line: the 600 tokens of `a a ... a` are split as the claim
says, but the store of the 514th argument passes the end of `args[513]` and
`parseCmd` has no defined result. -/
theorem parseCmd_splits_as_stated_fails :
    (tokens "ls\t-la".toList = ["ls\t-la".toList] ∧
      argv (parseCmd 4242 "ls\t-la".toList cmdInfo.zero getNewShellState).1 =
        ["ls\t-la".toList] ∧
      argv (parseCmd 4242 "ls\t-la".toList cmdInfo.zero getNewShellState).1 ≠
        ["ls".toList, "-la".toList]) ∧
    tokens (manyTokens 600) = List.replicate 600 ['a'] ∧
    parseCmdChecked 4242 (manyTokens 600) cmdInfo.zero getNewShellState = none := by
  refine ⟨by decide, tokens_manyTokens 600, ?_⟩
  have h := parseCmdChecked_many 4242 599 [] getNewShellState (by decide)
    (by intro t ht; exact absurd ht (List.not_mem_nil _)) (by decide)
  rw [List.append_nil] at h
  exact h

/-- C19, evaluated at the line `cmd x > &`: after `parseCmd` the count is 1 but
slot 1 still holds `x`, so `execvp` is handed the two arguments `cmd` and `x`
while `freeCmd`, which walks the first `argsCount` slots, releases only
`cmd`. -/
theorem args_out_of_step_with_count :
    (parseCmd 4242 "cmd x > &".toList cmdInfo.zero getNewShellState).1.args =
      [some "cmd".toList, some "x".toList, none, none] ∧
    (parseCmd 4242 "cmd x > &".toList cmdInfo.zero getNewShellState).1.argsCount = 1 ∧
    readSlot (parseCmd 4242 "cmd x > &".toList cmdInfo.zero getNewShellState).1.args 1 =
      some "x".toList ∧
    argv (parseCmd 4242 "cmd x > &".toList cmdInfo.zero getNewShellState).1 =
      ["cmd".toList, "x".toList] ∧
    freeCmd (parseCmd 4242 "cmd x > &".toList cmdInfo.zero getNewShellState).1 =
      ["cmd".toList] := by
  decide

/-! ## Comment lines and the expansion buffer -/

theorem strtok_r_no_space (c : Char) (s : List Char) (h : ∀ x ∈ c :: s, x ≠ ' ') :
    strtok_r (c :: s) cmdDelim = some (c :: s, []) := by
  have hc : c ≠ ' ' := h c (List.mem_cons_self _ _)
  have hs : ∀ x ∈ s, x ≠ ' ' := fun x hx => h x (List.mem_cons_of_mem _ hx)
  rw [strtok_r_cons_char c s hc]
  have h1 : s.takeWhile (fun x => !isDelim cmdDelim x) = s := by
    rw [List.takeWhile_eq_self_iff]
    intro x hx
    simp [isDelim_space, hs x hx]
  have h2 : s.dropWhile (fun x => !isDelim cmdDelim x) = [] := by
    rw [List.dropWhile_eq_nil_iff]
    intro x hx
    simp [isDelim_space, hs x hx]
  rw [h1, h2]
  rfl

theorem replace_hash_cons (pid rest : List Char) :
    replaceDoubleDollar pid ('#' :: '$' :: rest) =
      '#' :: replaceDoubleDollar pid ('$' :: rest) := by
  simp [replaceDoubleDollar]

theorem comment_overrun_line :
    strtok_r ('#' :: List.replicate 1400 '$') cmdDelim =
      some ('#' :: List.replicate 1400 '$', []) ∧
    expandDoubleDollarChecked 4242 ('#' :: List.replicate 1400 '$') = none := by
  constructor
  · apply strtok_r_no_space
    intro x hx
    rcases List.mem_cons.mp hx with h | h
    · rw [h]; decide
    · rw [(List.mem_replicate.mp h).2]; decide
  · have hl : (replaceDoubleDollar (pidString 4242) (List.replicate 1400 '$')).length = 2800 :=
      replace_dollars_length (pidString 4242) 700
    have hrep : replaceDoubleDollar (pidString 4242) ('#' :: List.replicate 1400 '$') =
        '#' :: replaceDoubleDollar (pidString 4242) (List.replicate 1400 '$') := by
      have : List.replicate 1400 '$' = '$' :: List.replicate 1399 '$' := rfl
      rw [this, replace_hash_cons]
    rw [expandChecked_eq, expand_eq_replace, hrep, List.length_cons, hl]
    simp

/-- C5 as stated fails twice. On a line that holds only a tab: the tab is
whitespace but not a separator of `parseCmd`, so the line has the one token
`<TAB>`, is not marked ignored, and `handleCmd` forks a child for it and waits.
On a long comment: for `#` followed by 1400 characters `$` the first token is
expanded before the test for `#`, the 2801 characters pass the end of the 2049
bytes of `expanded`, and `parseCmd` has no defined result. -/
theorem parseCmd_ignored_line_as_stated_fails :
    ("\t".toList.all Char.isWhitespace = true ∧
      tokens "\t".toList = ["\t".toList] ∧
      (parseCmd 4242 "\t".toList cmdInfo.zero getNewShellState).1.isIgnored = false ∧
      (handleCmd sysAllRunning
        (parseCmd 4242 "\t".toList cmdInfo.zero getNewShellState).1 getNewShellState).2 =
        [.fork, .sigBlock .SIGTSTP, .waitBlocking 300, .sigUnblock .SIGTSTP]) ∧
    tokens ('#' :: List.replicate 1400 '$') = ['#' :: List.replicate 1400 '$'] ∧
    parseCmdChecked 4242 ('#' :: List.replicate 1400 '$') cmdInfo.zero getNewShellState =
      none := by
  refine ⟨by decide, ?_, ?_⟩
  · rw [tokens_of_strtok_some comment_overrun_line.1]
    rfl
  · exact parseCmdChecked_first_overrun 4242 _ _ _ _ _ comment_overrun_line.1
      comment_overrun_line.2

end TinyniSh
